import Mathlib

/-!
Shallow embedding of the resilient-call-and-response-parsing layer of
`src/services/geminiService.ts` (study-assistant app), together with proofs
settling the behavioural claims about it.

Modelling conventions:
* JavaScript strings are `List Char`.
* A thrown JavaScript error is identified with its `JSON.stringify`
  serialization, the only view `withRetry` inspects.
* An asynchronous operation handed to `withRetry` is a function from the
  invocation index (0-based) to the settled outcome of that invocation.
* The generation operations take the response of the model collaborator as an
  oracle argument (universally quantified in the theorems); prompt text only
  feeds the collaborator, so it does not appear in the modelled outputs.
-/

set_option maxRecDepth 8192

namespace Ameena

/-- Characters of a Lean string literal; used to write JavaScript string values. -/
def toL (s : String) : List Char := s.toList

/-- Model of a JavaScript error value reaching a catch block, identified with
its `JSON.stringify` serialization (geminiService.ts line 43). -/
structure JsError where
  serialized : List Char
deriving DecidableEq

/-- Does the first list start with the second? -/
def startsWithL : List Char → List Char → Bool
  | _, [] => true
  | [], _ :: _ => false
  | c :: t, d :: u => c = d && startsWithL t u

/-- Model of JavaScript `String.prototype.includes`: substring test. -/
def containsSub (hay needle : List Char) : Bool :=
  startsWithL hay needle ||
    match hay with
    | [] => false
    | _ :: t => containsSub t needle

/-- Transient-error classifier of `withRetry` (geminiService.ts line 44):
the serialized error contains one of the four rate-limit/unavailability markers. -/
def isRateLimitError (e : JsError) : Bool :=
  containsSub e.serialized (toL "429") || containsSub e.serialized (toL "503") ||
    containsSub e.serialized (toL "RESOURCE_EXHAUSTED") ||
    containsSub e.serialized (toL "UNAVAILABLE")

/-- Observable trace of one run of `withRetry`: the settled result, the number
of invocations of the wrapped operation, the delays slept (in order), and the
`(attempt, delay)` arguments of the onRetry observer calls (in order). -/
structure RetryTrace (α : Type) where
  result : Except JsError α
  calls : Nat
  sleeps : List Nat
  retryCalls : List (Nat × Nat)

/-- Error thrown by the unreachable tail of `withRetry` (geminiService.ts line 59). -/
def exceededRetryError : JsError := ⟨toL "Exceeded retry attempts."⟩

/-- Loop of `withRetry` (geminiService.ts lines 36-57). `fn i` is the outcome of
the i-th invocation (0-based); `attempt` counts failures so far (the variable `attempt` of the source at loop entry); `delay` is the current backoff delay;
`sleeps` and `retries` accumulate the observable trace. -/
def withRetryGo (fn : Nat → Except JsError α) (maxAttempts : Nat)
    (attempt delay : Nat) (sleeps : List Nat) (retries : List (Nat × Nat)) :
    RetryTrace α :=
  if h : attempt < maxAttempts then
    match fn attempt with
    | .ok a => ⟨.ok a, attempt + 1, sleeps, retries⟩
    | .error e =>
      if isRateLimitError e = true ∧ attempt + 1 < maxAttempts then
        withRetryGo fn maxAttempts (attempt + 1) (delay * 2)
          (sleeps ++ [delay]) (retries ++ [(attempt + 1, delay)])
      else ⟨.error e, attempt + 1, sleeps, retries⟩
  else ⟨.error exceededRetryError, attempt, sleeps, retries⟩
termination_by maxAttempts - attempt
decreasing_by omega

/-- Model of `withRetry` (geminiService.ts lines 30-60); the source defaults
are `maxAttempts = 3`, `initialDelay = 1000`. -/
def withRetry (fn : Nat → Except JsError α) (maxAttempts initialDelay : Nat) :
    RetryTrace α :=
  withRetryGo fn maxAttempts 0 initialDelay [] []

theorem withRetryGo_ok {α : Type} (fn : Nat → Except JsError α) (x : α) :
    ∀ (k a m d : Nat) (sl : List Nat) (rt : List (Nat × Nat)),
      a + k < m →
      (∀ i, i < k → ∃ e, fn (a + i) = .error e ∧ isRateLimitError e = true) →
      fn (a + k) = .ok x →
      withRetryGo fn m a d sl rt =
        ⟨.ok x, a + k + 1, sl ++ (List.range k).map (fun j => d * 2 ^ j),
          rt ++ (List.range k).map (fun j => (a + j + 1, d * 2 ^ j))⟩ := by
  intro k
  induction k with
  | zero =>
    intro a m d sl rt hm _ hok
    rw [withRetryGo]
    simp only [Nat.add_zero] at hm hok
    simp [hm, hok]
  | succ k ih =>
    intro a m d sl rt hm hfail hok
    have ha : a < m := by omega
    obtain ⟨e, he, htrans⟩ := hfail 0 (by omega)
    rw [Nat.add_zero] at he
    rw [withRetryGo]
    simp only [ha, dite_true, he]
    have hcond : isRateLimitError e = true ∧ a + 1 < m := ⟨htrans, by omega⟩
    rw [if_pos hcond]
    have hfail' : ∀ i, i < k → ∃ e, fn (a + 1 + i) = .error e ∧ isRateLimitError e = true := by
      intro i hi
      have := hfail (i + 1) (by omega)
      simpa [Nat.add_assoc, Nat.add_comm 1 i, Nat.add_left_comm] using this
    have hok' : fn (a + 1 + k) = .ok x := by
      have : a + 1 + k = a + (k + 1) := by omega
      rw [this]; exact hok
    rw [ih (a + 1) m (d * 2) (sl ++ [d]) (rt ++ [(a + 1, d)]) (by omega) hfail' hok']
    have hmap1 : (List.range k).map (fun j => d * 2 * 2 ^ j) =
        (List.range k).map ((fun j => d * 2 ^ j) ∘ Nat.succ) := by
      apply List.map_congr_left
      intro j _
      simp only [Function.comp_apply, Nat.succ_eq_add_one, pow_succ]
      ring
    have hmap2 : (List.range k).map (fun j => (a + 1 + j + 1, d * 2 * 2 ^ j)) =
        (List.range k).map ((fun j => (a + j + 1, d * 2 ^ j)) ∘ Nat.succ) := by
      apply List.map_congr_left
      intro j _
      simp only [Function.comp_apply, Nat.succ_eq_add_one, Prod.mk.injEq, pow_succ]
      exact ⟨by omega, by ring⟩
    have hsleep :
        (sl ++ [d]) ++ (List.range k).map (fun j => d * 2 * 2 ^ j) =
          sl ++ (List.range (k + 1)).map (fun j => d * 2 ^ j) := by
      rw [List.append_assoc, List.range_succ_eq_map, List.map_cons, List.map_map, hmap1]
      simp
    have hretry :
        (rt ++ [(a + 1, d)]) ++ (List.range k).map (fun j => (a + 1 + j + 1, d * 2 * 2 ^ j)) =
          rt ++ (List.range (k + 1)).map (fun j => (a + j + 1, d * 2 ^ j)) := by
      rw [List.append_assoc, List.range_succ_eq_map, List.map_cons, List.map_map, hmap2]
      simp
    rw [show a + 1 + k + 1 = a + (k + 1) + 1 by omega, hsleep, hretry]

/-- Sum of the geometric backoff delays: sleeping `d * 2^j` for `j < m`
accumulates `d * (2^m - 1)` total suspension. -/
theorem geomDelaySum (d : Nat) : ∀ m : Nat,
    ((List.range m).map (fun j => d * 2 ^ j)).sum = d * (2 ^ m - 1) := by
  intro m
  induction m with
  | zero => simp
  | succ m ih =>
    rw [List.range_succ, List.map_append, List.sum_append, ih]
    have h1 : 1 ≤ 2 ^ m := Nat.one_le_two_pow
    simp only [List.map_cons, List.map_nil, List.sum_cons, List.sum_nil]
    have : 2 ^ m - 1 + 2 ^ m = 2 ^ (m + 1) - 1 := by
      rw [pow_succ]; omega
    rw [← this, Nat.mul_add]
    omega

/-- C1: for an operation failing with transiently-classified errors on its first
k attempts (k < maxAttempts) and succeeding on attempt k+1, withRetry returns that
attempt result, invoking the operation k+1 times, and the total time slept before
the Nth attempt (for every N up to k+1) equals initialDelay * (2^(N-1) - 1). -/
theorem claim1_withRetry_transient_then_success {α : Type} (fn : Nat → Except JsError α)
    (k m d : Nat) (x : α)
    (hk : k < m)
    (hfail : ∀ i, i < k → ∃ e, fn i = .error e ∧ isRateLimitError e = true)
    (hok : fn k = .ok x) :
    (withRetry fn m d).result = .ok x ∧
    (withRetry fn m d).calls = k + 1 ∧
    ∀ n, 1 ≤ n → n ≤ k + 1 →
      ((withRetry fn m d).sleeps.take (n - 1)).sum = d * (2 ^ (n - 1) - 1) := by
  have h := withRetryGo_ok fn x k 0 m d [] []
    (by omega) (by simpa using hfail) (by simpa using hok)
  rw [withRetry, h]
  refine ⟨rfl, by simp, ?_⟩
  intro n h1 h2
  simp only [List.nil_append]
  rw [← List.map_take, List.take_range, Nat.min_eq_left (by omega), geomDelaySum]

/-- Concrete operation for the claim C1 witness: one transient 429 failure, then success. -/
def c1Fn : Nat → Except JsError Nat
  | 0 => .error ⟨toL "Error: 429 rate limit"⟩
  | 1 => .ok 42
  | _ + 2 => .error ⟨toL "unused"⟩

/-- Witness for claim C1 at a concrete input. -/
theorem claim1_witness :
    (withRetry c1Fn 3 1000).result = .ok 42 ∧
    (withRetry c1Fn 3 1000).calls = 2 ∧
    ((withRetry c1Fn 3 1000).sleeps.take 1).sum = 1000 * (2 ^ 1 - 1) := by
  have h := claim1_withRetry_transient_then_success c1Fn 1 3 1000 42 (by omega)
    (fun i hi =>
      match i, hi with
      | 0, _ => ⟨⟨toL "Error: 429 rate limit"⟩, rfl, by decide⟩)
    rfl
  exact ⟨h.1, h.2.1, h.2.2 2 (by omega) (by omega)⟩

/-- C4: when the first failure is classified fatal (none of the four transient
markers in its serialized form), withRetry invokes the operation exactly once and
propagates that error unchanged, with no sleep and no onRetry call. -/
theorem claim4_withRetry_fatal_single_attempt {α : Type} (fn : Nat → Except JsError α)
    (m d : Nat) (e : JsError)
    (hm : 0 < m)
    (he : fn 0 = .error e)
    (hfatal : isRateLimitError e = false) :
    withRetry fn m d = ⟨.error e, 1, [], []⟩ := by
  rw [withRetry, withRetryGo]
  simp [hm, he, hfatal]

/-- Concrete operation for the claim C4 witness: a fatal auth error on every attempt. -/
def c4Fn : Nat → Except JsError Nat := fun _ => .error ⟨toL "401 unauthorized"⟩

/-- Witness for claim C4 at a concrete input. -/
theorem claim4_witness :
    withRetry c4Fn 3 1000 = ⟨.error ⟨toL "401 unauthorized"⟩, 1, [], []⟩ :=
  claim4_withRetry_fatal_single_attempt c4Fn 3 1000 ⟨toL "401 unauthorized"⟩
    (by omega) rfl (by decide)

/-- C5: with maxAttempts = 3 and transiently-classified failures on the first three
invocations, withRetry invokes the operation exactly three times and propagates the
third error; the attempt ceiling is never exceeded (a success on a fourth invocation
is never observed, since fn is unconstrained beyond the first three invocations). -/
theorem claim5_withRetry_exhausts_at_ceiling {α : Type} (fn : Nat → Except JsError α)
    (d : Nat) (e0 e1 e2 : JsError)
    (h0 : fn 0 = .error e0) (t0 : isRateLimitError e0 = true)
    (h1 : fn 1 = .error e1) (t1 : isRateLimitError e1 = true)
    (h2 : fn 2 = .error e2) (t2 : isRateLimitError e2 = true) :
    withRetry fn 3 d = ⟨.error e2, 3, [d, d * 2], [(1, d), (2, d * 2)]⟩ := by
  rw [withRetry]
  rw [withRetryGo]
  simp only [show (0:Nat) < 3 from by omega, dite_true, h0, t0, true_and,
    show (1:Nat) < 3 from by omega, if_true]
  rw [withRetryGo]
  simp only [show (1:Nat) < 3 from by omega, dite_true, h1, t1, true_and,
    show (2:Nat) < 3 from by omega, if_true]
  rw [withRetryGo]
  simp only [show (2:Nat) < 3 from by omega, dite_true, h2, t2, true_and,
    show ¬((3:Nat) < 3) from by omega, if_false]
  simp

/-- Concrete operation for the claim C5 witness: transient 503 failures forever. -/
def c5Fn : Nat → Except JsError Nat := fun _ => .error ⟨toL "503 Service Unavailable"⟩

/-- Witness for claim C5 at a concrete input. -/
theorem claim5_witness :
    withRetry c5Fn 3 1000 =
      ⟨.error ⟨toL "503 Service Unavailable"⟩, 3, [1000, 1000 * 2],
        [(1, 1000), (2, 1000 * 2)]⟩ :=
  claim5_withRetry_exhausts_at_ceiling c5Fn 1000 _ _ _
    rfl (by decide) rfl (by decide) rfl (by decide)

/-! ### JSON values and the response normalizer -/

/-- JSON whitespace accepted by `JSON.parse` (space, tab, line feed, carriage return). -/
def isJsonWs (c : Char) : Bool :=
  c = ' ' || c = '\t' || c = '\n' || c = '\r'

/-- The code points matched by the JavaScript regex class `\s` and trimmed by
`String.prototype.trim`: the ECMAScript WhiteSpace production (tab, vertical
tab, form feed, space, no-break space, zero-width no-break space, and every
Unicode Space_Separator character) together with the LineTerminator
production (line feed, carriage return, line separator, paragraph
separator). -/
def isJsWs (c : Char) : Bool :=
  c.toNat = 32 || c.toNat = 9 || c.toNat = 10 || c.toNat = 13 ||
    c.toNat = 11 || c.toNat = 12 || c.toNat = 160 || c.toNat = 5760 ||
    (8192 ≤ c.toNat && c.toNat ≤ 8202) || c.toNat = 8232 || c.toNat = 8233 ||
    c.toNat = 8239 || c.toNat = 8287 || c.toNat = 12288 || c.toNat = 65279

/-- Model of `String.prototype.trim`. -/
def trimJs (s : List Char) : List Char :=
  ((s.dropWhile isJsWs).reverse.dropWhile isJsWs).reverse

/-- Word characters of the regex class `\w`, for the fence language tag. -/
def isWordChar (c : Char) : Bool :=
  ('0' ≤ c && c ≤ '9') || ('a' ≤ c && c ≤ 'z') || c = '_' || ('A' ≤ c && c ≤ 'Z')

/-- The backtick character. -/
def btick : Char := Char.ofNat 96

/-- Strip a trailing occurrence of `suf` from `l`, if present. -/
def dropSuffixL (l suf : List Char) : Option (List Char) :=
  if startsWithL l.reverse suf.reverse then some (l.reverse.drop suf.length).reverse
  else none

/-- Inner content captured by the fence regex of parseJsonFromText
(geminiService.ts line 65), a regex on an already-trimmed string matching
three backticks, an optional word-character language tag, padding, a lazy
content group, padding, and three closing backticks at the end. The source
uses the captured group only when it is truthy (non-empty); because the
leading padding is greedy and the content group lazy, the used capture always
equals the trimmed text strictly between the opening fence plus tag and the
closing fence, so this model returns exactly that (and `none` when the regex
fails to match or the capture is empty, in which case the caller keeps the
whole text). -/
def fenceInner (s : List Char) : Option (List Char) :=
  match s with
  | c1 :: c2 :: c3 :: r =>
    if c1 = btick && c2 = btick && c3 = btick then
      match dropSuffixL (r.dropWhile isWordChar) [btick, btick, btick] with
      | some mid =>
        let inner := trimJs mid
        if inner.isEmpty then none else some inner
      | none => none
    else none
  | _ => none

/-- After a `}` was read: if the remaining text starts with `\s*{` (the rest of
the repair pattern), return the text after the `{`. -/
def afterBraceGap (l : List Char) : Option (List Char) :=
  match l.dropWhile isJsWs with
  | c :: r => if c = '{' then some r else none
  | [] => none

/-- Fuel-driven worker for the global regex replacement of `}\s*{` by `},{`
(geminiService.ts line 72). Replacement proceeds left to right over
non-overlapping matches, resuming after each matched region; the whitespace of
a matched region is dropped. Fuel at least the length of the list makes the
fuel-exhausted branch unreachable. -/
def repairGo : Nat → List Char → List Char
  | 0, l => l
  | _ + 1, [] => []
  | fuel + 1, c :: rest =>
    if c = '}' then
      match afterBraceGap rest with
      | some r2 => '}' :: ',' :: '{' :: repairGo fuel r2
      | none => c :: repairGo fuel rest
    else c :: repairGo fuel rest

/-- Global replacement of `}\s*{` by `},{`: the missing-comma repair for
adjacent object literals applied by parseJsonFromText before parsing. -/
def repairBraces (l : List Char) : List Char := repairGo l.length l

/-- Does the text contain an occurrence of the repair pattern `}\s*{`? -/
def hasBraceGap : List Char → Bool
  | [] => false
  | c :: rest => (c = '}' && (afterBraceGap rest).isSome) || hasBraceGap rest

/-- JSON values, the result type of the modelled `JSON.parse`. Strings are
character lists; object members are an ordered key-value list (JavaScript
preserves insertion order; duplicate keys, which JavaScript would collapse,
are excluded by `noDupKeys` where it matters); numbers are modelled as
integers — the serializer below only ever emits integer literals, and no
claim involves fractional numbers. -/
inductive Json where
  | null : Json
  | bool : Bool → Json
  | num : Int → Json
  | str : List Char → Json
  | arr : List Json → Json
  | obj : List (List Char × Json) → Json

mutual

/-- Boolean equality on JSON values (structural). -/
def beqJ : Json → Json → Bool
  | .null, .null => true
  | .bool a, .bool b => a == b
  | .num a, .num b => a == b
  | .str a, .str b => a == b
  | .arr a, .arr b => beqArr a b
  | .obj a, .obj b => beqObj a b
  | _, _ => false

/-- Boolean equality on JSON value lists. -/
def beqArr : List Json → List Json → Bool
  | [], [] => true
  | a :: as, b :: bs => beqJ a b && beqArr as bs
  | _, _ => false

/-- Boolean equality on JSON member lists. -/
def beqObj : List (List Char × Json) → List (List Char × Json) → Bool
  | [], [] => true
  | (k1, v1) :: as, (k2, v2) :: bs => k1 == k2 && beqJ v1 v2 && beqObj as bs
  | _, _ => false

end

mutual

theorem beqJ_iff : ∀ a b : Json, beqJ a b = true ↔ a = b
  | .null, b => by cases b <;> simp [beqJ]
  | .bool x, b => by cases b <;> simp [beqJ]
  | .num x, b => by cases b <;> simp [beqJ]
  | .str x, b => by cases b <;> simp [beqJ]
  | .arr x, b => by
    cases b <;> simp [beqJ]
    exact beqArr_iff x _
  | .obj x, b => by
    cases b <;> simp [beqJ]
    exact beqObj_iff x _

theorem beqArr_iff : ∀ x y : List Json, beqArr x y = true ↔ x = y
  | [], y => by cases y <;> simp [beqArr]
  | a :: as, y => by
    cases y with
    | nil => simp [beqArr]
    | cons b bs => simp [beqArr, beqJ_iff a b, beqArr_iff as bs]

theorem beqObj_iff : ∀ x y : List (List Char × Json), beqObj x y = true ↔ x = y
  | [], y => by cases y <;> simp [beqObj]
  | (k1, v1) :: as, y => by
    cases y with
    | nil => simp [beqObj]
    | cons b bs =>
      obtain ⟨k2, v2⟩ := b
      simp [beqObj, beqJ_iff v1 v2, beqObj_iff as bs, and_assoc]

end

instance : DecidableEq Json :=
  fun a b => decidable_of_iff (beqJ a b = true) (beqJ_iff a b)

/-- Decimal digit character for a value below ten. -/
def digitChar : Nat → Char
  | 0 => '0' | 1 => '1' | 2 => '2' | 3 => '3' | 4 => '4'
  | 5 => '5' | 6 => '6' | 7 => '7' | 8 => '8' | 9 => '9'
  | _ + 10 => '0'

/-- Lowercase hexadecimal digit character for a value below sixteen. -/
def hexDigitChar : Nat → Char
  | 0 => '0' | 1 => '1' | 2 => '2' | 3 => '3' | 4 => '4'
  | 5 => '5' | 6 => '6' | 7 => '7' | 8 => '8' | 9 => '9'
  | 10 => 'a' | 11 => 'b' | 12 => 'c' | 13 => 'd' | 14 => 'e' | 15 => 'f'
  | _ + 16 => '0'

/-- Decimal digits of n in reverse order (empty for zero); the fuel argument
makes the recursion structural and is sufficient at any value at least n. -/
def natToRevDigits : Nat → Nat → List Char
  | 0, _ => []
  | _ + 1, 0 => []
  | fuel + 1, n + 1 => digitChar ((n + 1) % 10) :: natToRevDigits fuel ((n + 1) / 10)

/-- Decimal representation of a natural number. -/
def natToChars (n : Nat) : List Char :=
  if n = 0 then ['0'] else (natToRevDigits n n).reverse

/-- Decimal representation of an integer, as JSON.stringify prints it. -/
def intToChars (n : Int) : List Char :=
  if n < 0 then '-' :: natToChars n.natAbs else natToChars n.natAbs

/-- JSON.stringify escaping of one string character: quote, backslash and the
named control characters get two-character escapes, the remaining control
characters get a lowercase \u00XX escape, everything else is itself. -/
def escapeChar (c : Char) : List Char :=
  if c = '"' then ['\\', '"']
  else if c = '\\' then ['\\', '\\']
  else if c = '\x08' then ['\\', 'b']
  else if c = '\t' then ['\\', 't']
  else if c = '\n' then ['\\', 'n']
  else if c = '\x0c' then ['\\', 'f']
  else if c = '\r' then ['\\', 'r']
  else if c.toNat < 32 then
    '\\' :: 'u' :: '0' :: '0' :: hexDigitChar (c.toNat / 16) :: [hexDigitChar (c.toNat % 16)]
  else [c]

/-- JSON.stringify escaping of a whole string body. -/
def escapeString (s : List Char) : List Char := (s.map escapeChar).flatten

mutual

/-- Model of JSON.stringify on JSON values: the compact serialization with no
inserted whitespace, exactly as the JavaScript runtime prints it (numbers
restricted to the integer literals this model carries). -/
def stringify : Json → List Char
  | .null => toL "null"
  | .bool true => toL "true"
  | .bool false => toL "false"
  | .num n => intToChars n
  | .str s => '"' :: (escapeString s ++ ['"'])
  | .arr xs => '[' :: (stringifyElems xs ++ [']'])
  | .obj kvs => '{' :: (stringifyMembers kvs ++ ['}'])

/-- Comma-joined serializations of array elements. -/
def stringifyElems : List Json → List Char
  | [] => []
  | [x] => stringify x
  | x :: y :: r => stringify x ++ ',' :: stringifyElems (y :: r)

/-- Comma-joined serializations of object members. -/
def stringifyMembers : List (List Char × Json) → List Char
  | [] => []
  | [(k, v)] => '"' :: (escapeString k ++ '"' :: ':' :: stringify v)
  | (k, v) :: m :: r =>
    ('"' :: (escapeString k ++ '"' :: ':' :: stringify v)) ++ ',' :: stringifyMembers (m :: r)

end

/-- Is this a decimal digit character? -/
def isDigitC (c : Char) : Bool := '0' ≤ c && c ≤ '9'

/-- Value of a hexadecimal digit character. -/
def hexVal (c : Char) : Option Nat :=
  if isDigitC c then some (c.toNat - 48)
  else if 'a' ≤ c && c ≤ 'f' then some (c.toNat - 87)
  else if 'A' ≤ c && c ≤ 'F' then some (c.toNat - 55)
  else none

/-- JSON string-body parser, entered after the opening quote: consumes up to
and including the closing quote, decoding the escape sequences `JSON.parse`
accepts and rejecting raw control characters. (A \uXXXX escape denoting an
unpaired surrogate, which no input here contains, is mapped to the null
character rather than a lone surrogate code unit.) -/
def parseStr : List Char → Option (List Char × List Char)
  | [] => none
  | c :: r =>
    if c = '"' then some ([], r)
    else if c = '\\' then
      match r with
      | [] => none
      | e :: r2 =>
        if e = '"' then (parseStr r2).map (fun p => ('"' :: p.1, p.2))
        else if e = '\\' then (parseStr r2).map (fun p => ('\\' :: p.1, p.2))
        else if e = '/' then (parseStr r2).map (fun p => ('/' :: p.1, p.2))
        else if e = 'b' then (parseStr r2).map (fun p => ('\x08' :: p.1, p.2))
        else if e = 'f' then (parseStr r2).map (fun p => ('\x0c' :: p.1, p.2))
        else if e = 'n' then (parseStr r2).map (fun p => ('\n' :: p.1, p.2))
        else if e = 'r' then (parseStr r2).map (fun p => ('\r' :: p.1, p.2))
        else if e = 't' then (parseStr r2).map (fun p => ('\t' :: p.1, p.2))
        else if e = 'u' then
          match r2 with
          | h1 :: h2 :: h3 :: h4 :: r3 =>
            match hexVal h1, hexVal h2, hexVal h3, hexVal h4 with
            | some a, some b, some hc, some hd =>
              (parseStr r3).map
                (fun p => (Char.ofNat (((a * 16 + b) * 16 + hc) * 16 + hd) :: p.1, p.2))
            | _, _, _, _ => none
          | _ => none
        else none
    else if c.toNat < 32 then none
    else (parseStr r).map (fun p => (c :: p.1, p.2))

/-- Greedy decimal-digit accumulator. -/
def parseDigitsAux (acc : Nat) : List Char → Nat × List Char
  | [] => (acc, [])
  | c :: r =>
    if isDigitC c then parseDigitsAux (acc * 10 + (c.toNat - 48)) r else (acc, c :: r)

/-- JSON unsigned-integer grammar: `0` (not followed by a digit) or a nonzero
digit followed by digits. -/
def parseNat : List Char → Option (Nat × List Char)
  | [] => none
  | c :: r =>
    if c = '0' then
      match r with
      | d :: _ => if isDigitC d then none else some (0, r)
      | [] => some (0, [])
    else if isDigitC c then some (parseDigitsAux (c.toNat - 48) r)
    else none

/-- JSON integer-number grammar (optional minus sign; the fraction and
exponent forms, which the serializer never emits and no claim exercises, are
not recognised). -/
def parseNumber : List Char → Option (Int × List Char)
  | [] => none
  | c :: r =>
    if c = '-' then (parseNat r).map (fun p => (-(p.1 : Int), p.2))
    else (parseNat (c :: r)).map (fun p => ((p.1 : Int), p.2))

/-- Does the list start with this character? -/
def headIs (l : List Char) (c : Char) : Bool :=
  match l with
  | d :: _ => d = c
  | [] => false

mutual

/-- Fuel-driven model of the value grammar of `JSON.parse`: skip whitespace
and parse one JSON value, returning it with the unconsumed remainder. -/
def parseValue : Nat → List Char → Option (Json × List Char)
  | 0, _ => none
  | fuel + 1, l =>
    match l.dropWhile isJsonWs with
    | [] => none
    | c :: r =>
      if c = 'n' then
        match r with
        | 'u' :: 'l' :: 'l' :: t => some (.null, t)
        | _ => none
      else if c = 't' then
        match r with
        | 'r' :: 'u' :: 'e' :: t => some (.bool true, t)
        | _ => none
      else if c = 'f' then
        match r with
        | 'a' :: 'l' :: 's' :: 'e' :: t => some (.bool false, t)
        | _ => none
      else if c = '"' then (parseStr r).map (fun p => (.str p.1, p.2))
      else if c = '[' then
        if headIs (r.dropWhile isJsonWs) ']' then some (.arr [], (r.dropWhile isJsonWs).tail)
        else (parseElems fuel (r.dropWhile isJsonWs)).map (fun p => (.arr p.1, p.2))
      else if c = '{' then
        if headIs (r.dropWhile isJsonWs) '}' then some (.obj [], (r.dropWhile isJsonWs).tail)
        else (parseMembers fuel (r.dropWhile isJsonWs)).map (fun p => (.obj p.1, p.2))
      else if c = '-' || isDigitC c then (parseNumber (c :: r)).map (fun p => (.num p.1, p.2))
      else none

/-- Comma-separated array elements up to and including the closing bracket. -/
def parseElems : Nat → List Char → Option (List Json × List Char)
  | 0, _ => none
  | fuel + 1, l =>
    match parseValue fuel l with
    | none => none
    | some (v, t) =>
      if headIs (t.dropWhile isJsonWs) ',' then
        (parseElems fuel (t.dropWhile isJsonWs).tail).map (fun p => (v :: p.1, p.2))
      else if headIs (t.dropWhile isJsonWs) ']' then some ([v], (t.dropWhile isJsonWs).tail)
      else none

/-- Comma-separated object members up to and including the closing brace. -/
def parseMembers : Nat → List Char → Option (List (List Char × Json) × List Char)
  | 0, _ => none
  | fuel + 1, l =>
    if headIs (l.dropWhile isJsonWs) '"' then
      match parseStr (l.dropWhile isJsonWs).tail with
      | none => none
      | some (k, t) =>
        if headIs (t.dropWhile isJsonWs) ':' then
          match parseValue fuel (t.dropWhile isJsonWs).tail with
          | none => none
          | some (v, u) =>
            if headIs (u.dropWhile isJsonWs) ',' then
              (parseMembers fuel (u.dropWhile isJsonWs).tail).map
                (fun p => ((k, v) :: p.1, p.2))
            else if headIs (u.dropWhile isJsonWs) '}' then
              some ([(k, v)], (u.dropWhile isJsonWs).tail)
            else none
        else none
    else none

end

/-- Model of `JSON.parse`: one value surrounded by optional whitespace and
nothing else; any violation of the grammar yields `none` (the thrown
SyntaxError). The fuel bound length + 1 exceeds the recursion depth any input
of that length can demand. -/
def jsonParse (s : List Char) : Option Json :=
  match parseValue (s.length + 1) s with
  | some (v, rest) => if (rest.dropWhile isJsonWs).isEmpty then some v else none
  | none => none

/-- Model of parseJsonFromText (geminiService.ts lines 63-80): trim the text,
replace it by the fenced-block capture when the fence regex matches with a
non-empty capture, apply the `}\s*{` → `},{` repair, and JSON.parse the
result, with parse failure reported as `none` instead of an exception. -/
def parseJsonFromText (text : List Char) : Option Json :=
  jsonParse (repairBraces
    (match fenceInner (trimJs text) with
      | some inner => inner
      | none => trimJs text))

/-! ### Printer-parser inverse lemmas -/

/-- The first unconsumed character may not continue a number literal. -/
def restOkNum : List Char → Bool
  | [] => true
  | c :: _ => !isDigitC c

theorem digitChar_isDigit {d : Nat} (h : d < 10) : isDigitC (digitChar d) = true := by
  interval_cases d <;> decide

theorem digitChar_toNat {d : Nat} (h : d < 10) : (digitChar d).toNat - 48 = d := by
  interval_cases d <;> decide

theorem digitChar_ne_zero {d : Nat} (h0 : 0 < d) (h : d < 10) : digitChar d ≠ '0' := by
  interval_cases d <;> decide

theorem hexVal_hexDigitChar {n : Nat} (h : n < 16) : hexVal (hexDigitChar n) = some n := by
  interval_cases n <;> decide

theorem digit_head_facts {c : Char} (h : isDigitC c = true) :
    isJsonWs c = false ∧ isJsWs c = false ∧ c ≠ 'n' ∧ c ≠ 't' ∧ c ≠ 'f' ∧ c ≠ '"' ∧
      c ≠ '[' ∧ c ≠ '{' ∧ c ≠ '-' ∧ c ≠ ']' ∧ c ≠ '}' := by
  refine ⟨?_, ?_, ?_, ?_, ?_, ?_, ?_, ?_, ?_, ?_, ?_⟩
  · cases hw : isJsonWs c
    · rfl
    · exfalso
      simp only [isJsonWs, Bool.or_eq_true, decide_eq_true_eq] at hw
      rcases hw with ((h1 | h1) | h1) | h1 <;> subst h1 <;> exact absurd h (by decide)
  · cases hw : isJsWs c
    · rfl
    · exfalso
      have hv : 48 ≤ c.toNat ∧ c.toNat ≤ 57 := by
        simp only [isDigitC, Bool.and_eq_true, decide_eq_true_eq] at h
        exact ⟨h.1, h.2⟩
      simp only [isJsWs, Bool.or_eq_true, Bool.and_eq_true, decide_eq_true_eq] at hw
      omega
  all_goals intro h1; subst h1; exact absurd h (by decide)

/-- Dropping leading JSON whitespace does nothing on a non-whitespace head. -/
theorem dropWhile_jsonWs_cons {c : Char} {l : List Char} (h : isJsonWs c = false) :
    (c :: l).dropWhile isJsonWs = c :: l := by
  simp [List.dropWhile_cons, h]

theorem parseDigitsAux_cons (acc : Nat) (c : Char) (r : List Char) :
    parseDigitsAux acc (c :: r) =
      if isDigitC c then parseDigitsAux (acc * 10 + (c.toNat - 48)) r else (acc, c :: r) := rfl

theorem natToRevDigits_succ (f n : Nat) :
    natToRevDigits (f + 1) (n + 1) =
      digitChar ((n + 1) % 10) :: natToRevDigits f ((n + 1) / 10) := rfl

theorem natToRevDigits_zero : ∀ fuel, natToRevDigits fuel 0 = [] := by
  intro fuel; cases fuel <;> rfl

theorem parseDigitsAux_stop {acc : Nat} {rest : List Char} (h : restOkNum rest = true) :
    parseDigitsAux acc rest = (acc, rest) := by
  cases rest with
  | nil => rfl
  | cons c r =>
    simp only [restOkNum, Bool.not_eq_true'] at h
    rw [parseDigitsAux_cons, if_neg (by simp [h])]

theorem parseDigits_rev (n : Nat) : ∀ fuel acc rest, 0 < n → n ≤ fuel →
    parseDigitsAux acc ((natToRevDigits fuel n).reverse ++ rest) =
      parseDigitsAux (acc * 10 ^ (natToRevDigits fuel n).length + n) rest := by
  induction n using Nat.strong_induction_on with
  | _ n ih =>
    intro fuel acc rest hpos hle
    obtain ⟨f, rfl⟩ : ∃ f, fuel = f + 1 := ⟨fuel - 1, by omega⟩
    obtain ⟨m, rfl⟩ : ∃ m, n = m + 1 := ⟨n - 1, by omega⟩
    have hdig : (m + 1) % 10 < 10 := Nat.mod_lt _ (by omega)
    rw [natToRevDigits_succ]
    simp only [List.reverse_cons, List.append_assoc, List.singleton_append, List.length_cons]
    by_cases hq : (m + 1) / 10 = 0
    · have hm : m + 1 < 10 := by omega
      have hmod : (m + 1) % 10 = m + 1 := Nat.mod_eq_of_lt hm
      rw [hq, natToRevDigits_zero]
      simp only [List.reverse_nil, List.nil_append, List.length_nil, Nat.zero_add]
      rw [parseDigitsAux_cons, if_pos (by simp [digitChar_isDigit hdig]),
        digitChar_toNat hdig, hmod, pow_one]
    · have hqlt : (m + 1) / 10 < m + 1 := Nat.div_lt_self (by omega) (by omega)
      have hqf : (m + 1) / 10 ≤ f := by omega
      rw [ih ((m + 1) / 10) hqlt f acc (digitChar ((m + 1) % 10) :: rest) (by omega) hqf]
      rw [parseDigitsAux_cons, if_pos (by simp [digitChar_isDigit hdig]),
        digitChar_toNat hdig]
      congr 1
      have hdm : 10 * ((m + 1) / 10) + (m + 1) % 10 = m + 1 := Nat.div_add_mod (m + 1) 10
      rw [show acc * 10 ^ ((natToRevDigits f ((m + 1) / 10)).length + 1)
            = acc * 10 ^ (natToRevDigits f ((m + 1) / 10)).length * 10 from by ring]
      omega

/-- The reversed digit list of a positive number starts with a nonzero digit. -/
theorem revDigits_head (n : Nat) : ∀ fuel, 0 < n → n ≤ fuel →
    ∃ c t, (natToRevDigits fuel n).reverse = c :: t ∧ isDigitC c = true ∧ c ≠ '0' := by
  induction n using Nat.strong_induction_on with
  | _ n ih =>
    intro fuel hpos hle
    obtain ⟨f, rfl⟩ : ∃ f, fuel = f + 1 := ⟨fuel - 1, by omega⟩
    obtain ⟨m, rfl⟩ : ∃ m, n = m + 1 := ⟨n - 1, by omega⟩
    rw [natToRevDigits_succ]
    simp only [List.reverse_cons]
    by_cases hq : (m + 1) / 10 = 0
    · have hm : m + 1 < 10 := by omega
      have hmod : (m + 1) % 10 = m + 1 := Nat.mod_eq_of_lt hm
      rw [hq, natToRevDigits_zero]
      refine ⟨digitChar ((m + 1) % 10), [], by simp, digitChar_isDigit (by omega), ?_⟩
      rw [hmod]
      exact digitChar_ne_zero (by omega) hm
    · have hqlt : (m + 1) / 10 < m + 1 := Nat.div_lt_self (by omega) (by omega)
      obtain ⟨c, t, hct, hdig2, hne⟩ := ih ((m + 1) / 10) hqlt f (by omega) (by omega)
      exact ⟨c, t ++ [digitChar ((m + 1) % 10)], by rw [hct]; rfl, hdig2, hne⟩

theorem parseNat_cons (c : Char) (r : List Char) :
    parseNat (c :: r) =
      if c = '0' then
        (match r with
          | d :: _ => if isDigitC d then none else some (0, r)
          | [] => some ((0 : Nat), ([] : List Char)))
      else if isDigitC c then some (parseDigitsAux (c.toNat - 48) r) else none := rfl

/-- The decimal printer is inverted by the JSON unsigned-integer parser. -/
theorem parseNat_natToChars (n : Nat) (rest : List Char) (h : restOkNum rest = true) :
    parseNat (natToChars n ++ rest) = some (n, rest) := by
  by_cases h0 : n = 0
  · subst h0
    simp only [natToChars, if_true, List.singleton_append, reduceIte]
    rw [parseNat_cons, if_pos rfl]
    cases rest with
    | nil => rfl
    | cons c r =>
      simp only [restOkNum, Bool.not_eq_true'] at h
      simp [h]
  · rw [natToChars, if_neg h0]
    obtain ⟨c, t, hct, hdig, hne0⟩ := revDigits_head n n (by omega) (by omega)
    rw [hct]
    have step : parseDigitsAux 0 ((c :: t) ++ rest) = (n, rest) := by
      rw [← hct, parseDigits_rev n n 0 rest (by omega) (by omega)]
      simp only [Nat.zero_mul, Nat.zero_add]
      exact parseDigitsAux_stop h
    rw [List.cons_append, parseNat_cons, if_neg hne0, if_pos (by simp [hdig])]
    rw [show parseDigitsAux (c.toNat - 48) (t ++ rest) = parseDigitsAux 0 (c :: (t ++ rest)) by
      rw [parseDigitsAux_cons, if_pos (by simp [hdig])]; simp]
    rw [← List.cons_append, step]

theorem parseNumber_cons (c : Char) (r : List Char) :
    parseNumber (c :: r) =
      if c = '-' then (parseNat r).map (fun p => (-(p.1 : Int), p.2))
      else (parseNat (c :: r)).map (fun p => ((p.1 : Int), p.2)) := rfl

/-- The integer printer is inverted by the JSON number parser. -/
theorem parseNumber_intToChars (n : Int) (rest : List Char) (h : restOkNum rest = true) :
    parseNumber (intToChars n ++ rest) = some (n, rest) := by
  by_cases hneg : n < 0
  · rw [intToChars, if_pos hneg, List.cons_append, parseNumber_cons, if_pos rfl,
      parseNat_natToChars n.natAbs rest h]
    have hval : -((n.natAbs : Nat) : Int) = n := by omega
    have hred : (some ((n.natAbs : Nat), rest)).map
        (fun p : Nat × List Char => (-(p.1 : Int), p.2)) = some (-((n.natAbs : Nat) : Int), rest) :=
      rfl
    rw [hred, hval]
  · rw [intToChars, if_neg hneg]
    obtain ⟨c, t, hct, hdig⟩ : ∃ c t, natToChars n.natAbs = c :: t ∧ isDigitC c = true := by
      by_cases h0 : n.natAbs = 0
      · rw [h0]; exact ⟨'0', [], rfl, by decide⟩
      · rw [natToChars, if_neg h0]
        obtain ⟨c, t, hct, hdig, _⟩ := revDigits_head n.natAbs n.natAbs (by omega) (by omega)
        exact ⟨c, t, hct, hdig⟩
    rw [hct, List.cons_append, parseNumber_cons,
      if_neg (digit_head_facts hdig).2.2.2.2.2.2.2.2.1, ← List.cons_append, ← hct,
      parseNat_natToChars n.natAbs rest h]
    have hval : ((n.natAbs : Nat) : Int) = n := by omega
    have hred : (some ((n.natAbs : Nat), rest)).map
        (fun p : Nat × List Char => ((p.1 : Int), p.2)) = some (((n.natAbs : Nat) : Int), rest) :=
      rfl
    rw [hred, hval]

theorem parseStr_quote (r : List Char) : parseStr ('"' :: r) = some ([], r) := by
  rw [parseStr.eq_def]; simp

theorem parseStr_bs_quote (r2 : List Char) :
    parseStr ('\\' :: '"' :: r2) = (parseStr r2).map (fun p => ('"' :: p.1, p.2)) := by
  rw [parseStr.eq_def]; simp

theorem parseStr_bs_bs (r2 : List Char) :
    parseStr ('\\' :: '\\' :: r2) = (parseStr r2).map (fun p => ('\\' :: p.1, p.2)) := by
  rw [parseStr.eq_def]; simp

theorem parseStr_bs_b (r2 : List Char) :
    parseStr ('\\' :: 'b' :: r2) = (parseStr r2).map (fun p => ('\x08' :: p.1, p.2)) := by
  rw [parseStr.eq_def]; simp

theorem parseStr_bs_f (r2 : List Char) :
    parseStr ('\\' :: 'f' :: r2) = (parseStr r2).map (fun p => ('\x0c' :: p.1, p.2)) := by
  rw [parseStr.eq_def]; simp

theorem parseStr_bs_n (r2 : List Char) :
    parseStr ('\\' :: 'n' :: r2) = (parseStr r2).map (fun p => ('\n' :: p.1, p.2)) := by
  rw [parseStr.eq_def]; simp

theorem parseStr_bs_r (r2 : List Char) :
    parseStr ('\\' :: 'r' :: r2) = (parseStr r2).map (fun p => ('\r' :: p.1, p.2)) := by
  rw [parseStr.eq_def]; simp

theorem parseStr_bs_t (r2 : List Char) :
    parseStr ('\\' :: 't' :: r2) = (parseStr r2).map (fun p => ('\t' :: p.1, p.2)) := by
  rw [parseStr.eq_def]; simp

theorem parseStr_bs_u (h1 h2 h3 h4 : Char) (r3 : List Char) :
    parseStr ('\\' :: 'u' :: h1 :: h2 :: h3 :: h4 :: r3) =
      match hexVal h1, hexVal h2, hexVal h3, hexVal h4 with
      | some a, some b, some hc, some hd =>
        (parseStr r3).map
          (fun p => (Char.ofNat (((a * 16 + b) * 16 + hc) * 16 + hd) :: p.1, p.2))
      | _, _, _, _ => none := by
  rw [parseStr.eq_def]; simp

theorem parseStr_plain {c : Char} (r : List Char) (h1 : ¬c = '"') (h2 : ¬c = '\\')
    (h3 : ¬c.toNat < 32) :
    parseStr (c :: r) = (parseStr r).map (fun p => (c :: p.1, p.2)) := by
  rw [parseStr.eq_def]
  simp only []
  rw [if_neg h1, if_neg h2, if_neg h3]

/-- The string-body escaper is inverted by the string-body parser. -/
theorem parseStr_escape (s : List Char) : ∀ rest : List Char,
    parseStr (escapeString s ++ ('"' :: rest)) = some (s, rest) := by
  induction s with
  | nil =>
    intro rest
    rw [show escapeString [] = [] from rfl, List.nil_append, parseStr_quote]
  | cons c s ih =>
    intro rest
    have hesc : escapeString (c :: s) = escapeChar c ++ escapeString s := by
      simp [escapeString]
    rw [hesc, List.append_assoc]
    simp only [escapeChar]
    by_cases h1 : c = '"'
    · rw [if_pos h1]
      subst h1
      rw [show (['\\', '"'] : List Char) ++ (escapeString s ++ '"' :: rest) =
        '\\' :: '"' :: (escapeString s ++ '"' :: rest) from rfl]
      rw [parseStr_bs_quote, ih rest]
      rfl
    rw [if_neg h1]
    by_cases h2 : c = '\\'
    · rw [if_pos h2]
      subst h2
      rw [show (['\\', '\\'] : List Char) ++ (escapeString s ++ '"' :: rest) =
        '\\' :: '\\' :: (escapeString s ++ '"' :: rest) from rfl]
      rw [parseStr_bs_bs, ih rest]
      rfl
    rw [if_neg h2]
    by_cases h3 : c = '\x08'
    · rw [if_pos h3]
      subst h3
      rw [show (['\\', 'b'] : List Char) ++ (escapeString s ++ '"' :: rest) =
        '\\' :: 'b' :: (escapeString s ++ '"' :: rest) from rfl]
      rw [parseStr_bs_b, ih rest]
      rfl
    rw [if_neg h3]
    by_cases h4 : c = '\t'
    · rw [if_pos h4]
      subst h4
      rw [show (['\\', 't'] : List Char) ++ (escapeString s ++ '"' :: rest) =
        '\\' :: 't' :: (escapeString s ++ '"' :: rest) from rfl]
      rw [parseStr_bs_t, ih rest]
      rfl
    rw [if_neg h4]
    by_cases h5 : c = '\n'
    · rw [if_pos h5]
      subst h5
      rw [show (['\\', 'n'] : List Char) ++ (escapeString s ++ '"' :: rest) =
        '\\' :: 'n' :: (escapeString s ++ '"' :: rest) from rfl]
      rw [parseStr_bs_n, ih rest]
      rfl
    rw [if_neg h5]
    by_cases h6 : c = '\x0c'
    · rw [if_pos h6]
      subst h6
      rw [show (['\\', 'f'] : List Char) ++ (escapeString s ++ '"' :: rest) =
        '\\' :: 'f' :: (escapeString s ++ '"' :: rest) from rfl]
      rw [parseStr_bs_f, ih rest]
      rfl
    rw [if_neg h6]
    by_cases h7 : c = '\r'
    · rw [if_pos h7]
      subst h7
      rw [show (['\\', 'r'] : List Char) ++ (escapeString s ++ '"' :: rest) =
        '\\' :: 'r' :: (escapeString s ++ '"' :: rest) from rfl]
      rw [parseStr_bs_r, ih rest]
      rfl
    rw [if_neg h7]
    by_cases h8 : c.toNat < 32
    · rw [if_pos h8]
      rw [show (['\\', 'u', '0', '0', hexDigitChar (c.toNat / 16), hexDigitChar (c.toNat % 16)] :
          List Char) ++ (escapeString s ++ '"' :: rest) =
        '\\' :: 'u' :: '0' :: '0' :: hexDigitChar (c.toNat / 16) :: hexDigitChar (c.toNat % 16) ::
          (escapeString s ++ '"' :: rest) from rfl]
      rw [parseStr_bs_u]
      rw [show hexVal '0' = some 0 from rfl]
      rw [hexVal_hexDigitChar (show c.toNat / 16 < 16 by omega),
        hexVal_hexDigitChar (show c.toNat % 16 < 16 by omega)]
      simp only []
      have harg : ((0 * 16 + 0) * 16 + c.toNat / 16) * 16 + c.toNat % 16 = c.toNat := by omega
      rw [harg, Char.ofNat_toNat, ih rest]
      rfl
    rw [if_neg h8]
    rw [show ([c] : List Char) ++ (escapeString s ++ '"' :: rest) =
      c :: (escapeString s ++ '"' :: rest) from rfl]
    rw [parseStr_plain _ h1 h2 h8, ih rest]
    rfl

mutual

/-- Fuel needed by `parseValue` to parse this value. -/
def sizeB : Json → Nat
  | .null => 1
  | .bool _ => 1
  | .num _ => 1
  | .str _ => 1
  | .arr xs => 1 + sizeE xs
  | .obj kvs => 1 + sizeM kvs

/-- Fuel needed by `parseElems` for these elements. -/
def sizeE : List Json → Nat
  | [] => 0
  | x :: r => 1 + sizeB x + sizeE r

/-- Fuel needed by `parseMembers` for these members. -/
def sizeM : List (List Char × Json) → Nat
  | [] => 0
  | (_, v) :: r => 1 + sizeB v + sizeM r

end

theorem sizeB_pos (v : Json) : 1 ≤ sizeB v := by
  cases v <;> simp [sizeB]

mutual

theorem sizeB_le : ∀ v : Json, sizeB v ≤ (stringify v).length
  | .null => by rw [stringify]; simp [sizeB]; decide
  | .bool b => by cases b <;> (rw [stringify]; simp [sizeB]; decide)
  | .num n => by
    have h : 1 ≤ (intToChars n).length := by
      have hne : natToChars n.natAbs ≠ [] := by
        rw [natToChars]
        by_cases h0 : n.natAbs = 0
        · simp [h0]
        · rw [if_neg h0]
          obtain ⟨m, hm⟩ : ∃ m, n.natAbs = m + 1 := ⟨n.natAbs - 1, by omega⟩
          rw [hm, natToRevDigits_succ]
          simp
      rw [intToChars]
      by_cases hneg : n < 0
      · simp [hneg]
      · rw [if_neg hneg]
        cases hc : natToChars n.natAbs with
        | nil => exact absurd hc hne
        | cons a t => simp [hc]
    simpa [sizeB, stringify] using h
  | .str s => by simp [sizeB, stringify]
  | .arr xs => by
    have h := sizeE_le xs
    simp only [sizeB, stringify, List.length_cons, List.length_append]
    simp at h ⊢
    omega
  | .obj kvs => by
    have h := sizeM_le kvs
    simp only [sizeB, stringify, List.length_cons, List.length_append]
    simp at h ⊢
    omega

theorem sizeE_le : ∀ xs : List Json, sizeE xs ≤ (stringifyElems xs).length + 1
  | [] => by simp [sizeE, stringifyElems]
  | [x] => by
    have h := sizeB_le x
    simp only [sizeE, stringifyElems]
    omega
  | x :: y :: r => by
    have h1 := sizeB_le x
    have h2 := sizeE_le (y :: r)
    rw [sizeE, stringifyElems, List.length_append, List.length_cons]
    omega

theorem sizeM_le : ∀ kvs : List (List Char × Json), sizeM kvs ≤ (stringifyMembers kvs).length + 1
  | [] => by simp [sizeM, stringifyMembers]
  | [(k, v)] => by
    have h := sizeB_le v
    simp only [sizeM, stringifyMembers, List.length_cons, List.length_append]
    omega
  | (k, v) :: m :: r => by
    have h1 := sizeB_le v
    have h2 := sizeM_le (m :: r)
    rw [sizeM, stringifyMembers]
    simp only [List.length_append, List.length_cons]
    omega

end

/-- The serialization of any value starts with a known non-whitespace,
non-delimiter character. -/
theorem stringify_head (v : Json) :
    ∃ c t, stringify v = c :: t ∧ isJsonWs c = false ∧ isJsWs c = false ∧
      c ≠ ']' ∧ c ≠ '}' := by
  cases v with
  | null => exact ⟨'n', _, rfl, by decide, by decide, by decide, by decide⟩
  | bool b => cases b with
    | true => exact ⟨'t', _, rfl, by decide, by decide, by decide, by decide⟩
    | false => exact ⟨'f', _, rfl, by decide, by decide, by decide, by decide⟩
  | num n =>
    have hhead : ∃ c t, intToChars n = c :: t ∧ (c = '-' ∨ isDigitC c = true) := by
      rw [intToChars]
      by_cases hneg : n < 0
      · rw [if_pos hneg]; exact ⟨'-', _, rfl, Or.inl rfl⟩
      · rw [if_neg hneg, natToChars]
        by_cases h0 : n.natAbs = 0
        · rw [if_pos h0]; exact ⟨'0', [], rfl, Or.inr (by decide)⟩
        · rw [if_neg h0]
          obtain ⟨c, t, hct, hdig, _⟩ := revDigits_head n.natAbs n.natAbs (by omega) (by omega)
          exact ⟨c, t, hct, Or.inr hdig⟩
    obtain ⟨c, t, hct, hc⟩ := hhead
    refine ⟨c, t, by simp [stringify, hct], ?_, ?_, ?_, ?_⟩ <;> rcases hc with h | h
    · subst h; decide
    · exact (digit_head_facts h).1
    · subst h; decide
    · exact (digit_head_facts h).2.1
    · subst h; decide
    · exact (digit_head_facts h).2.2.2.2.2.2.2.2.2.1
    · subst h; decide
    · exact (digit_head_facts h).2.2.2.2.2.2.2.2.2.2
  | str s => exact ⟨'"', _, rfl, by decide, by decide, by decide, by decide⟩
  | arr xs => exact ⟨'[', _, rfl, by decide, by decide, by decide, by decide⟩
  | obj kvs => exact ⟨'{', _, rfl, by decide, by decide, by decide, by decide⟩

/-- The element serialization of a nonempty list starts with the serialization
of its first element. -/
theorem stringifyElems_shape (x : Json) (xs : List Json) :
    ∃ w, stringifyElems (x :: xs) = stringify x ++ w := by
  cases xs with
  | nil => exact ⟨[], by simp [stringifyElems]⟩
  | cons y r => exact ⟨',' :: stringifyElems (y :: r), rfl⟩

/-- The member serialization of a nonempty list starts with a double quote. -/
theorem stringifyMembers_shape (kv : List Char × Json) (kvs : List (List Char × Json)) :
    ∃ w, stringifyMembers (kv :: kvs) = '"' :: w := by
  obtain ⟨k, v⟩ := kv
  cases kvs with
  | nil => exact ⟨_, rfl⟩
  | cons m r => exact ⟨_, rfl⟩

/-- The serialization of an integer starts with a minus sign or a digit. -/
theorem intToChars_head (n : Int) :
    ∃ c t, intToChars n = c :: t ∧ (c = '-' ∨ isDigitC c = true) := by
  rw [intToChars]
  by_cases hneg : n < 0
  · rw [if_pos hneg]; exact ⟨'-', _, rfl, Or.inl rfl⟩
  · rw [if_neg hneg, natToChars]
    by_cases h0 : n.natAbs = 0
    · rw [if_pos h0]; exact ⟨'0', [], rfl, Or.inr (by decide)⟩
    · rw [if_neg h0]
      obtain ⟨c, t, hct, hdig, _⟩ := revDigits_head n.natAbs n.natAbs (by omega) (by omega)
      exact ⟨c, t, hct, Or.inr hdig⟩

theorem restOkNum_of_nondigit {c : Char} (r : List Char) (h : isDigitC c = false) :
    restOkNum (c :: r) = true := by
  rw [restOkNum]
  simp [h]

/-- Joint inverse statement for the three mutually recursive parser workers:
at sufficient fuel, each parses the corresponding serialization back to the
value, leaving exactly the trailing input. -/
theorem parse_stringify_all : ∀ fuel : Nat,
    (∀ v rest, sizeB v ≤ fuel → restOkNum rest = true →
      parseValue fuel (stringify v ++ rest) = some (v, rest)) ∧
    (∀ x xs rest, sizeE (x :: xs) ≤ fuel →
      parseElems fuel (stringifyElems (x :: xs) ++ (']' :: rest)) = some (x :: xs, rest)) ∧
    (∀ kv kvs rest, sizeM (kv :: kvs) ≤ fuel →
      parseMembers fuel (stringifyMembers (kv :: kvs) ++ ('}' :: rest)) =
        some (kv :: kvs, rest)) := by
  intro fuel
  induction fuel using Nat.strong_induction_on with
  | _ fuel ih =>
    cases fuel with
    | zero =>
      refine ⟨fun v rest hs _ => absurd hs (by have := sizeB_pos v; omega),
        fun x xs rest hs => absurd hs (by rw [sizeE]; have := sizeB_pos x; omega),
        fun kv kvs rest hs => ?_⟩
      obtain ⟨k, v⟩ := kv
      exact absurd hs (by rw [sizeM]; have := sizeB_pos v; omega)
    | succ f =>
      have hPV := (ih f (by omega)).1
      have hPE := (ih f (by omega)).2.1
      have hPM := (ih f (by omega)).2.2
      refine ⟨?_, ?_, ?_⟩
      · -- parseValue
        intro v rest hs hr
        cases v with
        | null =>
          rw [show stringify Json.null ++ rest = 'n' :: 'u' :: 'l' :: 'l' :: rest from rfl]
          rw [parseValue.eq_def]
          simp [List.dropWhile_cons, isJsonWs]
        | bool b =>
          cases b with
          | true =>
            rw [show stringify (Json.bool true) ++ rest = 't' :: 'r' :: 'u' :: 'e' :: rest
              from rfl]
            rw [parseValue.eq_def]
            simp [List.dropWhile_cons, isJsonWs]
          | false =>
            rw [show stringify (Json.bool false) ++ rest =
              'f' :: 'a' :: 'l' :: 's' :: 'e' :: rest from rfl]
            rw [parseValue.eq_def]
            simp [List.dropWhile_cons, isJsonWs]
        | num n =>
          rw [show stringify (Json.num n) = intToChars n from by rw [stringify]]
          obtain ⟨c, t, hct, hc⟩ := intToChars_head n
          rw [hct, List.cons_append, parseValue.eq_def]
          simp only []
          rcases hc with rfl | hdig
          · rw [dropWhile_jsonWs_cons (by decide)]
            simp only []
            rw [if_neg (by decide), if_neg (by decide), if_neg (by decide),
              if_neg (by decide), if_neg (by decide), if_neg (by decide),
              if_pos (by decide)]
            rw [← List.cons_append, ← hct, parseNumber_intToChars n rest hr]
            rfl
          · have hf := digit_head_facts hdig
            rw [dropWhile_jsonWs_cons hf.1]
            simp only []
            rw [if_neg hf.2.2.1, if_neg hf.2.2.2.1, if_neg hf.2.2.2.2.1,
              if_neg hf.2.2.2.2.2.1, if_neg hf.2.2.2.2.2.2.1, if_neg hf.2.2.2.2.2.2.2.1,
              if_pos (show (decide (c = '-') || isDigitC c) = true by simp [hdig])]
            rw [← List.cons_append, ← hct, parseNumber_intToChars n rest hr]
            rfl
        | str s =>
          rw [show stringify (Json.str s) ++ rest = '"' :: (escapeString s ++ ('"' :: rest))
            from by rw [stringify]; simp [List.append_assoc]]
          rw [parseValue.eq_def]
          simp only []
          rw [dropWhile_jsonWs_cons (by decide)]
          simp only []
          rw [if_neg (by decide), if_neg (by decide), if_neg (by decide), if_pos (by decide)]
          rw [parseStr_escape s rest]
          rfl
        | arr xs =>
          cases xs with
          | nil =>
            rw [show stringify (Json.arr []) ++ rest = '[' :: ']' :: rest from by
              rw [stringify, stringifyElems]; simp]
            rw [parseValue.eq_def]
            simp [List.dropWhile_cons, isJsonWs, headIs]
          | cons x xs =>
            have hsize : sizeE (x :: xs) ≤ f := by
              rw [sizeB] at hs; omega
            have hshape : stringify (Json.arr (x :: xs)) ++ rest
                = '[' :: (stringifyElems (x :: xs) ++ (']' :: rest)) := by
              rw [stringify]; simp [List.append_assoc]
            rw [hshape, parseValue.eq_def]
            simp only []
            rw [dropWhile_jsonWs_cons (by decide)]
            simp only []
            rw [if_neg (by decide), if_neg (by decide), if_neg (by decide),
              if_neg (by decide), if_pos (by decide)]
            obtain ⟨w, hw⟩ := stringifyElems_shape x xs
            obtain ⟨c1, t1, hx1, hws1, _, hne1, _⟩ := stringify_head x
            have hdrop : (stringifyElems (x :: xs) ++ (']' :: rest)).dropWhile isJsonWs
                = stringifyElems (x :: xs) ++ (']' :: rest) := by
              conv_lhs => rw [hw, hx1]
              conv_rhs => rw [hw, hx1]
              simp only [List.cons_append, List.append_assoc]
              exact dropWhile_jsonWs_cons hws1
            have hhead : headIs (stringifyElems (x :: xs) ++ (']' :: rest)) ']' = false := by
              rw [hw, hx1]
              simp only [List.cons_append]
              simp [headIs, hne1]
            rw [hdrop, hhead]
            simp only [Bool.false_eq_true, if_false]
            rw [hPE x xs rest hsize]
            rfl
        | obj kvs =>
          cases kvs with
          | nil =>
            rw [show stringify (Json.obj []) ++ rest = '{' :: '}' :: rest from by
              rw [stringify, stringifyMembers]; simp]
            rw [parseValue.eq_def]
            simp [List.dropWhile_cons, isJsonWs, headIs]
          | cons kv kvs =>
            have hsize : sizeM (kv :: kvs) ≤ f := by
              rw [sizeB] at hs; omega
            have hshape : stringify (Json.obj (kv :: kvs)) ++ rest
                = '{' :: (stringifyMembers (kv :: kvs) ++ ('}' :: rest)) := by
              rw [stringify]; simp [List.append_assoc]
            rw [hshape, parseValue.eq_def]
            simp only []
            rw [dropWhile_jsonWs_cons (by decide)]
            simp only []
            rw [if_neg (by decide), if_neg (by decide), if_neg (by decide),
              if_neg (by decide), if_neg (by decide), if_pos (by decide)]
            obtain ⟨w, hw⟩ := stringifyMembers_shape kv kvs
            have hdrop : (stringifyMembers (kv :: kvs) ++ ('}' :: rest)).dropWhile isJsonWs
                = stringifyMembers (kv :: kvs) ++ ('}' :: rest) := by
              conv_lhs => rw [hw]
              conv_rhs => rw [hw]
              simp only [List.cons_append]
              exact dropWhile_jsonWs_cons (by decide)
            have hhead : headIs (stringifyMembers (kv :: kvs) ++ ('}' :: rest)) '}' = false := by
              rw [hw]
              simp only [List.cons_append]
              simp [headIs]
            rw [hdrop, hhead]
            simp only [Bool.false_eq_true, if_false]
            rw [hPM kv kvs rest hsize]
            rfl
      · -- parseElems
        intro x xs rest hs
        cases xs with
        | nil =>
          have hsx : sizeB x ≤ f := by
            rw [sizeE, sizeE] at hs; omega
          rw [show stringifyElems [x] = stringify x from by rw [stringifyElems]]
          rw [parseElems.eq_def]
          simp only []
          rw [hPV x (']' :: rest) hsx (restOkNum_of_nondigit _ (by decide))]
          simp only []
          rw [dropWhile_jsonWs_cons (by decide)]
          simp [headIs]
        | cons y r =>
          have hsx : sizeB x ≤ f := by
            rw [sizeE] at hs; have := sizeB_pos y; rw [sizeE] at hs; omega
          have hsyr : sizeE (y :: r) ≤ f := by
            rw [sizeE] at hs; have := sizeB_pos x; omega
          have hshape : stringifyElems (x :: y :: r) ++ (']' :: rest)
              = stringify x ++ (',' :: (stringifyElems (y :: r) ++ (']' :: rest))) := by
            rw [stringifyElems]
            simp [List.append_assoc]
          rw [hshape, parseElems.eq_def]
          simp only []
          rw [hPV x (',' :: (stringifyElems (y :: r) ++ (']' :: rest))) hsx (restOkNum_of_nondigit _ (by decide))]
          simp only []
          rw [dropWhile_jsonWs_cons (by decide)]
          simp only [headIs, List.tail_cons]
          rw [if_pos (by decide)]
          rw [hPE y r rest hsyr]
          rfl
      · -- parseMembers
        intro kv kvs rest hs
        obtain ⟨k, v⟩ := kv
        cases kvs with
        | nil =>
          have hsv : sizeB v ≤ f := by
            rw [sizeM, sizeM] at hs; omega
          have hshape : stringifyMembers [(k, v)] ++ ('}' :: rest)
              = '"' :: (escapeString k ++ ('"' :: (':' :: (stringify v ++ ('}' :: rest))))) := by
            rw [stringifyMembers]
            simp [List.append_assoc]
          rw [hshape, parseMembers.eq_def]
          simp only []
          rw [dropWhile_jsonWs_cons (by decide)]
          simp only [headIs, List.tail_cons]
          rw [if_pos (by decide)]
          rw [parseStr_escape k (':' :: (stringify v ++ ('}' :: rest)))]
          simp only []
          rw [dropWhile_jsonWs_cons (by decide)]
          simp only [headIs, List.tail_cons]
          rw [if_pos (by decide)]
          rw [hPV v ('}' :: rest) hsv (restOkNum_of_nondigit _ (by decide))]
          simp only []
          rw [dropWhile_jsonWs_cons (by decide)]
          simp [headIs]
        | cons m r =>
          have hsv : sizeB v ≤ f := by
            rw [sizeM] at hs
            obtain ⟨k2, v2⟩ := m
            rw [sizeM] at hs
            have := sizeB_pos v2
            omega
          have hsmr : sizeM (m :: r) ≤ f := by
            rw [sizeM] at hs; have := sizeB_pos v; omega
          have hshape : stringifyMembers ((k, v) :: m :: r) ++ ('}' :: rest)
              = '"' :: (escapeString k ++ ('"' :: (':' :: (stringify v ++
                  (',' :: (stringifyMembers (m :: r) ++ ('}' :: rest))))))) := by
            rw [stringifyMembers]
            simp [List.append_assoc]
          rw [hshape, parseMembers.eq_def]
          simp only []
          rw [dropWhile_jsonWs_cons (by decide)]
          simp only [headIs, List.tail_cons]
          rw [if_pos (by decide)]
          rw [parseStr_escape k (':' :: (stringify v ++
            (',' :: (stringifyMembers (m :: r) ++ ('}' :: rest)))))]
          simp only []
          rw [dropWhile_jsonWs_cons (by decide)]
          simp only [headIs, List.tail_cons]
          rw [if_pos (by decide)]
          rw [hPV v (',' :: (stringifyMembers (m :: r) ++ ('}' :: rest))) hsv (restOkNum_of_nondigit _ (by decide))]
          simp only []
          rw [dropWhile_jsonWs_cons (by decide)]
          simp only [headIs, List.tail_cons]
          rw [if_pos (by decide)]
          rw [hPM m r rest hsmr]
          rfl

/-- Top-level parse of a serialization at the fuel `jsonParse` supplies. -/
theorem jsonParse_stringify (v : Json) : jsonParse (stringify v) = some v := by
  have hfuel : sizeB v ≤ (stringify v).length + 1 := by
    have := sizeB_le v; omega
  have h := (parse_stringify_all ((stringify v).length + 1)).1 v [] hfuel (by rw [restOkNum])
  rw [List.append_nil] at h
  rw [jsonParse.eq_def, h]
  simp

theorem dropWhile_jsWs_cons {c : Char} {l : List Char} (h : isJsWs c = false) :
    (c :: l).dropWhile isJsWs = c :: l := by
  simp [List.dropWhile_cons, h]

/-- Trimming does nothing on a string with non-whitespace first and last
characters. -/
theorem trimJs_clean {l : List Char} {c d : Char} (h1 : l.head? = some c)
    (hc : isJsWs c = false) (h2 : l.getLast? = some d) (hd : isJsWs d = false) :
    trimJs l = l := by
  obtain ⟨t, rfl⟩ : ∃ t, l = c :: t := by
    cases l with
    | nil => simp at h1
    | cons a t =>
      simp only [List.head?_cons, Option.some.injEq] at h1
      exact ⟨t, by rw [h1]⟩
  rw [trimJs, dropWhile_jsWs_cons hc]
  have hrev : (c :: t).reverse.head? = some d := by
    rw [List.head?_reverse]; exact h2
  cases hrl : (c :: t).reverse with
  | nil => rw [hrl] at hrev; simp at hrev
  | cons a t2 =>
    rw [hrl] at hrev
    simp only [List.head?_cons, Option.some.injEq] at hrev
    subst hrev
    rw [dropWhile_jsWs_cons hd, ← hrl, List.reverse_reverse]

/-- Trimming a newline-padded string with clean ends recovers the string. -/
theorem trimJs_wrapped {s : List Char} {c d : Char} (h1 : s.head? = some c)
    (hc : isJsWs c = false) (h2 : s.getLast? = some d) (hd : isJsWs d = false) :
    trimJs ('\n' :: (s ++ ['\n'])) = s := by
  obtain ⟨t, rfl⟩ : ∃ t, s = c :: t := by
    cases s with
    | nil => simp at h1
    | cons a t =>
      simp only [List.head?_cons, Option.some.injEq] at h1
      exact ⟨t, by rw [h1]⟩
  rw [trimJs, List.dropWhile_cons]
  simp only [show isJsWs '\n' = true from by decide, if_true]
  rw [List.cons_append, dropWhile_jsWs_cons hc]
  rw [show (c :: (t ++ ['\n'])).reverse = '\n' :: (c :: t).reverse from by simp]
  rw [List.dropWhile_cons]
  simp only [show isJsWs '\n' = true from by decide, if_true]
  have hrev : (c :: t).reverse.head? = some d := by
    rw [List.head?_reverse]; exact h2
  cases hrl : (c :: t).reverse with
  | nil => rw [hrl] at hrev; simp at hrev
  | cons a t2 =>
    rw [hrl] at hrev
    simp only [List.head?_cons, Option.some.injEq] at hrev
    subst hrev
    rw [dropWhile_jsWs_cons hd, ← hrl, List.reverse_reverse]

theorem startsWithL_nil (l : List Char) : startsWithL l [] = true := by
  cases l <;> rw [startsWithL.eq_def]

theorem startsWithL_append (a b : List Char) : startsWithL (a ++ b) a = true := by
  induction a with
  | nil => rw [List.nil_append]; exact startsWithL_nil b
  | cons c a ih => simp [startsWithL, ih]

theorem dropSuffixL_append (l suf : List Char) : dropSuffixL (l ++ suf) suf = some l := by
  rw [dropSuffixL, List.reverse_append]
  rw [if_pos (startsWithL_append suf.reverse l.reverse)]
  rw [show suf.length = suf.reverse.length from (List.length_reverse suf).symm]
  rw [List.drop_left, List.reverse_reverse]

/-- The round-trip scenario of the spec: wrap a serialization in a fenced code
block (three backticks, newline, the text, newline, three backticks). -/
def fenceWrap (s : List Char) : List Char :=
  btick :: btick :: btick :: '\n' :: (s ++ ('\n' :: btick :: btick :: [btick]))

/-- Fence extraction recovers a clean-ended payload from its fenced form. -/
theorem fenceInner_fenceWrap {s : List Char} {c d : Char} (h1 : s.head? = some c)
    (hc : isJsWs c = false) (h2 : s.getLast? = some d) (hd : isJsWs d = false) :
    fenceInner (fenceWrap s) = some s := by
  rw [fenceWrap, fenceInner.eq_def]
  simp only []
  rw [if_pos (by decide)]
  rw [show List.dropWhile isWordChar ('\n' :: (s ++ ('\n' :: btick :: btick :: [btick])))
      = '\n' :: (s ++ ('\n' :: btick :: btick :: [btick])) from by
    rw [List.dropWhile_cons]
    simp only [show isWordChar '\n' = false from by decide, Bool.false_eq_true, if_false]]
  rw [show '\n' :: (s ++ ('\n' :: btick :: btick :: [btick]))
      = ('\n' :: (s ++ ['\n'])) ++ [btick, btick, btick] from by simp]
  rw [dropSuffixL_append]
  simp only []
  rw [trimJs_wrapped h1 hc h2 hd]
  obtain ⟨t, rfl⟩ : ∃ t, s = c :: t := by
    cases s with
    | nil => simp at h1
    | cons a t =>
      simp only [List.head?_cons, Option.some.injEq] at h1
      exact ⟨t, by rw [h1]⟩
  rw [if_neg (by simp [List.isEmpty])]

theorem hasBraceGap_cons (c : Char) (rest : List Char) :
    hasBraceGap (c :: rest) =
      ((c = '}' && (afterBraceGap rest).isSome) || hasBraceGap rest) := by
  rw [hasBraceGap]

/-- The repair is the identity on text without the `}\s*{` pattern. -/
theorem repairGo_id : ∀ (fuel : Nat) (l : List Char), hasBraceGap l = false →
    repairGo fuel l = l := by
  intro fuel
  induction fuel with
  | zero => intro l _; rw [repairGo.eq_def]
  | succ f ihf =>
    intro l h
    cases l with
    | nil => rw [repairGo.eq_def]
    | cons c rest =>
      rw [hasBraceGap_cons] at h
      simp only [Bool.or_eq_false_iff, Bool.and_eq_false_iff] at h
      obtain ⟨h1, h2⟩ := h
      rw [repairGo.eq_def]
      simp only []
      by_cases hc : c = '}'
      · rw [if_pos hc]
        have hnone : afterBraceGap rest = none := by
          rcases h1 with h1 | h1
          · exfalso; subst hc; simp at h1
          · exact Option.not_isSome_iff_eq_none.mp (by simp [h1])
        rw [hnone]
        simp only []
        rw [ihf rest h2, hc]
      · rw [if_neg hc, ihf rest h2]

theorem repairBraces_id {l : List Char} (h : hasBraceGap l = false) :
    repairBraces l = l := repairGo_id l.length l h

def keysUnique : List (List Char) → Bool
  | [] => true
  | k :: r => !(r.any (fun k2 => k2 == k)) && keysUnique r

mutual

/-- No object in the value has two members with the same key. `JSON.parse`
collapses duplicate keys (keeping the last), which the ordered member-list
model would not; values satisfying this predicate are unaffected. -/
def noDupKeys : Json → Bool
  | .null => true
  | .bool _ => true
  | .num _ => true
  | .str _ => true
  | .arr xs => noDupKeysElems xs
  | .obj kvs => keysUnique (kvs.map Prod.fst) && noDupKeysMembers kvs

/-- All elements satisfy `noDupKeys`. -/
def noDupKeysElems : List Json → Bool
  | [] => true
  | x :: r => noDupKeys x && noDupKeysElems r

/-- All member values satisfy `noDupKeys`. -/
def noDupKeysMembers : List (List Char × Json) → Bool
  | [] => true
  | (_, v) :: r => noDupKeys v && noDupKeysMembers r

end

theorem natToChars_ne_nil (n : Nat) : natToChars n ≠ [] := by
  rw [natToChars]
  by_cases h0 : n = 0
  · simp [h0]
  · rw [if_neg h0]
    obtain ⟨m, hm⟩ : ∃ m, n = m + 1 := ⟨n - 1, by omega⟩
    rw [hm, natToRevDigits_succ]
    simp

theorem natToChars_last (n : Nat) :
    ∃ d, (natToChars n).getLast? = some d ∧ isDigitC d = true := by
  by_cases h0 : n = 0
  · exact ⟨'0', by rw [h0]; decide, by decide⟩
  · rw [natToChars, if_neg h0]
    obtain ⟨m, hm⟩ : ∃ m, n = m + 1 := ⟨n - 1, by omega⟩
    refine ⟨digitChar ((m + 1) % 10), ?_, digitChar_isDigit (Nat.mod_lt _ (by omega))⟩
    rw [List.getLast?_reverse, hm, natToRevDigits_succ]
    rfl

/-- The serialization of any value ends with a non-whitespace character. -/
theorem stringify_last (v : Json) :
    ∃ d, (stringify v).getLast? = some d ∧ isJsWs d = false := by
  cases v with
  | null => exact ⟨'l', rfl, by decide⟩
  | bool b => cases b with
    | true => exact ⟨'e', rfl, by decide⟩
    | false => exact ⟨'e', rfl, by decide⟩
  | num n =>
    rw [show stringify (Json.num n) = intToChars n from by rw [stringify]]
    rw [intToChars]
    by_cases hneg : n < 0
    · rw [if_pos hneg]
      obtain ⟨d, hd, hdig⟩ := natToChars_last n.natAbs
      cases hnc : natToChars n.natAbs with
      | nil => exact absurd hnc (natToChars_ne_nil _)
      | cons c0 t0 =>
        refine ⟨d, ?_, (digit_head_facts hdig).2.1⟩
        rw [List.getLast?_cons_cons, ← hnc]
        exact hd
    · rw [if_neg hneg]
      obtain ⟨d, hd, hdig⟩ := natToChars_last n.natAbs
      exact ⟨d, hd, (digit_head_facts hdig).2.1⟩
  | str s =>
    refine ⟨'"', ?_, by decide⟩
    rw [show stringify (Json.str s) = ('"' :: escapeString s) ++ ['"'] from by
      rw [stringify]; simp]
    exact List.getLast?_concat _
  | arr xs =>
    refine ⟨']', ?_, by decide⟩
    rw [show stringify (Json.arr xs) = ('[' :: stringifyElems xs) ++ [']'] from by
      rw [stringify]; simp]
    exact List.getLast?_concat _
  | obj kvs =>
    refine ⟨'}', ?_, by decide⟩
    rw [show stringify (Json.obj kvs) = ('{' :: stringifyMembers kvs) ++ ['}'] from by
      rw [stringify]; simp]
    exact List.getLast?_concat _

/-- C9 (counterexample): a JSON value carrying the two-character string
`}{` is corrupted by the comma repair, so fence-wrapping its serialization
and normalizing does not reproduce it. -/
theorem claim9_counterexample :
    parseJsonFromText (fenceWrap (stringify (Json.obj [(toL "a", Json.str ['}', '{'])]))) ≠
      some (Json.obj [(toL "a", Json.str ['}', '{'])]) := by decide

/-- C9 (amended): for every JSON value (duplicate-free object keys, integer
numbers) whose serialization contains no occurrence of a closing brace
followed by whitespace and an opening brace, serializing, fence-wrapping and
normalizing reproduces the value structurally. -/
theorem claim9_roundtrip (v : Json) (hdup : noDupKeys v = true)
    (hgap : hasBraceGap (stringify v) = false) :
    parseJsonFromText (fenceWrap (stringify v)) = some v := by
  obtain ⟨c, t, hct, _, hcws, _, _⟩ := stringify_head v
  obtain ⟨d, hlast, hdws⟩ := stringify_last v
  have hhead : (stringify v).head? = some c := by rw [hct]; rfl
  have hlast2 : (fenceWrap (stringify v)).getLast? = some btick := by
    rw [fenceWrap]
    rw [show btick :: btick :: btick :: '\n' :: (stringify v ++ ('\n' :: btick :: btick :: [btick]))
        = (btick :: btick :: btick :: '\n' :: (stringify v ++ ['\n', btick, btick])) ++ [btick]
      from by simp]
    exact List.getLast?_concat _
  have houter : trimJs (fenceWrap (stringify v)) = fenceWrap (stringify v) :=
    trimJs_clean rfl (by decide) hlast2 (by decide)
  unfold parseJsonFromText
  rw [houter, fenceInner_fenceWrap hhead hcws hlast hdws]
  simp only []
  rw [repairBraces_id hgap, jsonParse_stringify]

/-- Witness for claim C9 (amended) at a concrete value. -/
theorem claim9_witness :
    noDupKeys (Json.obj [(toL "a", Json.num 1)]) = true ∧
    hasBraceGap (stringify (Json.obj [(toL "a", Json.num 1)])) = false ∧
    parseJsonFromText (fenceWrap (stringify (Json.obj [(toL "a", Json.num 1)]))) =
      some (Json.obj [(toL "a", Json.num 1)]) :=
  ⟨by decide, by decide, claim9_roundtrip _ (by decide) (by decide)⟩

/-- C3 (counterexample): two bare object literals joined by the pattern in a
fenced block: the repair inserts the comma, but the repaired text is not one
JSON value, so normalization returns a parse failure rather than a combined
value. -/
theorem claim3_counterexample :
    parseJsonFromText (toL "```json\n\x7b\"a\": 1\x7d\x7b\"b\": 2\x7d\n```") = none := by decide

/-- C3 (amended): the comma repair recovers `}{`-joined object literals when
they are enclosed in an array literal, producing the array of both objects. -/
theorem claim3_array_recovery :
    parseJsonFromText (toL "```json\n[\x7b\"a\": 1\x7d\x7b\"b\": 2\x7d]\n```") =
      some (Json.arr [Json.obj [(toL "a", Json.num 1)], Json.obj [(toL "b", Json.num 2)]]) := by
  decide

/-! ### Content generation operations -/

/-- Minimum characters needed to attempt generation (geminiService.ts line 25). -/
def MIN_CONTENT_LENGTH_FOR_GENERATION : Nat := 20

/-- Maximum characters sent for processing (geminiService.ts line 26). -/
def MAX_CONTENT_LENGTH_FOR_GENERATION : Nat := 8000

/-- The error thrown by operations that require the API key when the client
handle is null. -/
def apiKeyNotConfigured : JsError := ⟨toL "API Key not configured."⟩

/-- Note detail levels (types.ts `NoteLength`). -/
inductive NoteLength where
  | short : NoteLength
  | medium : NoteLength
  | detailed : NoteLength

/-- Prompt detail fragment chosen by the `switch` in generateNotes
(geminiService.ts lines 208-218); it only feeds the prompt. -/
def promptDetail : NoteLength → List Char
  | .short => toL "Provide a concise summary in 3-5 bullet points. Focus only on the absolute main ideas."
  | .medium => toL "Outline the core concepts and key supporting details in a structured list. Use nested bullets if necessary."
  | .detailed => toL "Create comprehensive, detailed notes covering all significant topics, definitions, and examples. Structure it with clear headings and bullet points."

/-- Model of generateSummary (geminiService.ts lines 166-180). `ai` is whether
the client handle is non-null; `call` is the settled outcome of the single
model invocation (an oracle subsuming any dependence on the prompt). -/
def generateSummary (ai : Bool) (content : List Char)
    (call : Except JsError (List Char)) : Except JsError (List Char) :=
  if ai = false then .ok (toL "API Key not configured. Summary unavailable.")
  else if content.length < MIN_CONTENT_LENGTH_FOR_GENERATION then
    .ok (toL "Content is too short to generate a meaningful summary.")
  else
    match call with
    | .ok t => .ok t
    | .error _ => .ok (toL "Failed to generate summary. Please try again.")

/-- Model of generateExplanation (geminiService.ts lines 182-203). -/
def generateExplanation (ai : Bool) (content : List Char)
    (call : Except JsError (List Char)) : Except JsError (List Char) :=
  if ai = false then .ok (toL "API Key not configured. Explanation unavailable.")
  else if content.length < MIN_CONTENT_LENGTH_FOR_GENERATION then
    .ok (toL "Content is too short to generate a meaningful explanation.")
  else
    match call with
    | .ok t => .ok t
    | .error _ => .ok (toL "Failed to generate explanation. Please try again.")

/-- Feedback value returned by generateFeedbackOnQuiz (types.ts
`AiGeneratedFeedback`). -/
structure AiGeneratedFeedback where
  text : List Char
deriving DecidableEq

/-- Model of generateFeedbackOnQuiz (geminiService.ts lines 259-272): the
missing-key guard returns a placeholder, but the model call is not wrapped in
try/catch, so its rejection propagates. `score`, `total` and `content` only
feed the prompt. -/
def generateFeedbackOnQuiz (ai : Bool) (score total : Nat)
    (content : Option (List Char)) (call : Except JsError (List Char)) :
    Except JsError AiGeneratedFeedback :=
  if ai = false then
    .ok ⟨toL "AI feedback is unavailable as the API key is not configured."⟩
  else
    match call with
    | .ok t => .ok ⟨t⟩
    | .error e => .error e

/-- Model of generateNotes (geminiService.ts lines 205-225): throws when the
key is missing; no try/catch around the model call. -/
def generateNotes (ai : Bool) (content : List Char) (len : NoteLength)
    (call : Except JsError (List Char)) : Except JsError (List Char) :=
  if ai = false then .error apiKeyNotConfigured
  else
    match call with
    | .ok t => .ok t
    | .error e => .error e

/-- Is this parsed value falsy in JavaScript (`null`, `false`, `0`, the empty
string)? The source applies `|| fallback` to parse results, which replaces
these values as well as `null`. -/
def jsFalsy : Json → Bool
  | .null => true
  | .bool false => true
  | .num 0 => true
  | .str [] => true
  | _ => false

/-- Model of generateQuizQuestions (geminiService.ts lines 227-257): throws
when the key is missing; no try/catch around the model call; a response that
fails JSON normalization (or parses to a falsy value, via `questions || []`)
degrades to the empty array. -/
def generateQuizQuestions (ai : Bool) (content : List Char) (count : Nat)
    (call : Except JsError (List Char)) : Except JsError Json :=
  if ai = false then .error apiKeyNotConfigured
  else
    match call with
    | .ok t =>
      .ok (match parseJsonFromText t with
        | some v => if jsFalsy v then Json.arr [] else v
        | none => Json.arr [])
    | .error e => .error e

/-- Model of generatePresentationContent (geminiService.ts lines 274-317):
throws when the key is missing; the model call goes through withRetry with
maxAttempts 4, and the whole try block is caught, turning any propagated
error into a resolved null. -/
def generatePresentationContent (ai : Bool) (explanation : List Char)
    (fn : Nat → Except JsError (List Char)) : Except JsError (Option Json) :=
  if ai = false then .error apiKeyNotConfigured
  else
    match (withRetry fn 4 1000).result with
    | .ok t => .ok (parseJsonFromText t)
    | .error _ => .ok none

/-- Difficulty levels of the metadata suggestion. -/
inductive Difficulty where
  | easy : Difficulty
  | medium : Difficulty
  | hard : Difficulty
deriving DecidableEq

/-- Metadata record suggested by suggestMetadata. -/
structure Metadata where
  title : List Char
  subject : List Char
  topic : List Char
  difficulty : Difficulty
deriving DecidableEq

/-- Deterministic fallback metadata (geminiService.ts lines 102-107). -/
def metadataFallback (content : List Char) : Metadata :=
  { title := toL "Content Analysis: " ++ content.take 30 ++ toL "..."
    subject := toL "General"
    topic := toL "Automated Analysis"
    difficulty := .medium }

/-- Result of suggestMetadata: either the parsed model response (an untyped
JSON value cast by the source) or the deterministic fallback. -/
inductive MetaResult where
  | fromModel : Json → MetaResult
  | fallback : Metadata → MetaResult

/-- Model of suggestMetadata (geminiService.ts lines 101-146): never throws —
missing key, model rejection and unparseable (or falsy, via
`metadata || fallback`) responses all fall back. -/
def suggestMetadata (ai : Bool) (content : List Char)
    (call : Except JsError (List Char)) : Except JsError MetaResult :=
  if ai = false then .ok (.fallback (metadataFallback content))
  else
    match call with
    | .ok t =>
      .ok (match parseJsonFromText t with
        | some v =>
          if jsFalsy v then .fallback (metadataFallback content) else .fromModel v
        | none => .fallback (metadataFallback content))
    | .error _ => .ok (.fallback (metadataFallback content))

/-! ### Media enrichment pipeline -/

/-- Slide of a presentation (types.ts `SlideContent`). -/
structure SlideContent where
  title : List Char
  content : List (List Char)
  imagePrompt : List Char
  imageUrl : Option (List Char)
deriving DecidableEq

/-- Presentation document (types.ts `PresentationContent`). -/
structure PresentationContent where
  title : List Char
  slides : List SlideContent
deriving DecidableEq

/-- Image returned by the provider: `generatedImages?.[0]?.image` collapsed to
an option, with its MIME type and optional base64 payload. -/
structure GenImage where
  mimeType : List Char
  imageBytes : Option (List Char)

/-- Characters kept verbatim by `encodeURIComponent`. -/
def isUnreservedURI (c : Char) : Bool :=
  ('0' ≤ c && c ≤ '9') || ('a' ≤ c && c ≤ 'z') || ('A' ≤ c && c ≤ 'Z') ||
    c = '-' || c = '_' || c = '.' || c = '!' || c = '~' || c = '*' ||
    c = Char.ofNat 39 || c = '(' || c = ')'

/-- Uppercase hexadecimal digit character for a value below sixteen. -/
def hexDigitCharUpper : Nat → Char
  | 0 => '0' | 1 => '1' | 2 => '2' | 3 => '3' | 4 => '4'
  | 5 => '5' | 6 => '6' | 7 => '7' | 8 => '8' | 9 => '9'
  | 10 => 'A' | 11 => 'B' | 12 => 'C' | 13 => 'D' | 14 => 'E' | 15 => 'F'
  | _ + 16 => '0'

/-- UTF-8 bytes of one character. -/
def utf8Bytes (c : Char) : List Nat :=
  let n := c.toNat
  if n < 128 then [n]
  else if n < 2048 then [192 + n / 64, 128 + n % 64]
  else if n < 65536 then [224 + n / 4096, 128 + (n / 64) % 64, 128 + n % 64]
  else [240 + n / 262144, 128 + (n / 4096) % 64, 128 + (n / 64) % 64, 128 + n % 64]

/-- Percent-encoding of one byte. -/
def pctEncodeByte (b : Nat) : List Char :=
  ['%', hexDigitCharUpper (b / 16), hexDigitCharUpper (b % 16)]

/-- Model of the JavaScript `encodeURIComponent` builtin. -/
def encodeURIComponent (s : List Char) : List Char :=
  (s.map (fun c =>
    if isUnreservedURI c then [c] else ((utf8Bytes c).map pctEncodeByte).flatten)).flatten

/-- Deterministic fallback image URL (geminiService.ts lines 347-352): the
public prompt-to-image endpoint parameterized by the encoded prompt, fixed
widescreen dimensions and a seed built from the prompt-independent suffix. -/
def getFallbackImageUrl (prompt seedSuffix : List Char) : List Char :=
  toL "https://image.pollinations.ai/prompt/" ++ encodeURIComponent prompt ++
    toL "?width=1280&height=720&seed=" ++
    encodeURIComponent (toL "presentation-" ++ seedSuffix)

/-- Per-slide seed suffix `${i}-${nondet i}`, where `nondet` models the
`Date.now()` / `Math.random()` component of the source. -/
def fallbackSuffix (nondet : Nat → List Char) (i : Nat) : List Char :=
  natToChars i ++ '-' :: nondet i

/-- Inline data URL built from provider image bytes
(geminiService.ts line 382). -/
def dataUrl (mime bytes : List Char) : List Char :=
  toL "data:" ++ mime ++ toL ";base64," ++ bytes

/-- URL chosen for one slide from the settled withRetry outcome
(geminiService.ts lines 381-387): provider bytes when present and non-empty
(JavaScript truthiness), the fallback URL otherwise, including when the retry
wrapper propagated an error. -/
def slideImageUrl (fb : List Char) (r : Except JsError (Option GenImage)) : List Char :=
  match r with
  | .ok (some img) =>
    match img.imageBytes with
    | some bytes => if bytes.isEmpty then fb else dataUrl img.mimeType bytes
    | none => fb
  | .ok none => fb
  | .error _ => fb

/-- Sequential enrichment loop of generatePresentationImages (lines 365-389):
image generation for each slide goes through withRetry (3 attempts, initial
delay 1000); `imgFn i j` is the outcome of the j-th attempt for slide i. The
progress observer and the fixed inter-item sleep do not affect the returned
document and are not modelled. -/
def enrichSlides (imgFn : Nat → Nat → Except JsError (Option GenImage))
    (nondet : Nat → List Char) : Nat → List SlideContent → List SlideContent
  | _, [] => []
  | i, s :: r =>
    { s with imageUrl := some (slideImageUrl
        (getFallbackImageUrl s.imagePrompt (fallbackSuffix nondet i))
        (withRetry (imgFn i) 3 1000).result) } :: enrichSlides imgFn nondet (i + 1) r

/-- The missing-key branch (lines 354-359): every slide mapped to its
fallback URL. -/
def fallbackSlides (nondet : Nat → List Char) : Nat → List SlideContent → List SlideContent
  | _, [] => []
  | i, s :: r =>
    { s with imageUrl := some (getFallbackImageUrl s.imagePrompt (fallbackSuffix nondet i)) }
      :: fallbackSlides nondet (i + 1) r

/-- Model of generatePresentationImages (geminiService.ts lines 343-393):
always resolves with a document (the `null` of the declared return type is
never produced). -/
def generatePresentationImages (ai : Bool) (pres : PresentationContent)
    (imgFn : Nat → Nat → Except JsError (Option GenImage))
    (nondet : Nat → List Char) : Option PresentationContent :=
  if ai = false then some { pres with slides := fallbackSlides nondet 0 pres.slides }
  else some { pres with slides := enrichSlides imgFn nondet 0 pres.slides }

/-- Exhausted or fatal on every attempt: when every invocation errors, the
retry wrapper settles with an error. -/
theorem withRetryGo_all_errors {α : Type} (fn : Nat → Except JsError α)
    (hf : ∀ j, ∃ e, fn j = .error e) :
    ∀ k m a d sl rt, m - a ≤ k → ∃ e, (withRetryGo fn m a d sl rt).result = .error e := by
  intro k
  induction k with
  | zero =>
    intro m a d sl rt h
    rw [withRetryGo.eq_def, dif_neg (by omega)]
    exact ⟨exceededRetryError, rfl⟩
  | succ k ihk =>
    intro m a d sl rt h
    rw [withRetryGo.eq_def]
    by_cases ha : a < m
    · rw [dif_pos ha]
      obtain ⟨e, he⟩ := hf a
      rw [he]
      simp only []
      by_cases hc : isRateLimitError e = true ∧ a + 1 < m
      · rw [if_pos hc]
        exact ihk m (a + 1) (d * 2) (sl ++ [d]) (rt ++ [(a + 1, d)]) (by omega)
      · rw [if_neg hc]
        exact ⟨e, rfl⟩
    · rw [dif_neg ha]
      exact ⟨exceededRetryError, rfl⟩

theorem withRetry_all_errors {α : Type} (fn : Nat → Except JsError α) (m d : Nat)
    (hf : ∀ j, ∃ e, fn j = .error e) :
    ∃ e, (withRetry fn m d).result = .error e :=
  withRetryGo_all_errors fn hf m m 0 d [] [] (by omega)

/-- C2 (counterexample): generateFeedbackOnQuiz has no try/catch around the
model call, so with the key configured a rejected call propagates to the
caller instead of resolving with a degraded string. -/
theorem claim2_counterexample :
    generateFeedbackOnQuiz true 1 2 none (.error ⟨toL "network failure"⟩) =
      .error ⟨toL "network failure"⟩ := rfl

/-- C2 (amended): generateSummary and generateExplanation always resolve with
a string for every key state and call outcome; generateFeedbackOnQuiz
resolves with a placeholder only when the key is absent and otherwise
propagates a model-call rejection unchanged. -/
theorem claim2_amended (ai : Bool) (content : List Char)
    (call : Except JsError (List Char)) (score total : Nat)
    (ctx : Option (List Char)) (e : JsError) :
    (∃ s, generateSummary ai content call = .ok s) ∧
    (∃ s, generateExplanation ai content call = .ok s) ∧
    generateFeedbackOnQuiz true score total ctx (.error e) = .error e ∧
    (∃ f, generateFeedbackOnQuiz false score total ctx call = .ok f) := by
  refine ⟨?_, ?_, rfl, ⟨_, rfl⟩⟩
  · unfold generateSummary
    by_cases h1 : ai = false
    · rw [if_pos h1]; exact ⟨_, rfl⟩
    · rw [if_neg h1]
      by_cases h2 : content.length < MIN_CONTENT_LENGTH_FOR_GENERATION
      · rw [if_pos h2]; exact ⟨_, rfl⟩
      · rw [if_neg h2]
        cases call with
        | ok t => exact ⟨t, rfl⟩
        | error e2 => exact ⟨_, rfl⟩
  · unfold generateExplanation
    by_cases h1 : ai = false
    · rw [if_pos h1]; exact ⟨_, rfl⟩
    · rw [if_neg h1]
      by_cases h2 : content.length < MIN_CONTENT_LENGTH_FOR_GENERATION
      · rw [if_pos h2]; exact ⟨_, rfl⟩
      · rw [if_neg h2]
        cases call with
        | ok t => exact ⟨t, rfl⟩
        | error e2 => exact ⟨_, rfl⟩

/-- C6 (counterexample): generatePresentationContent catches the error its
retry wrapper propagates and resolves with null instead of rejecting. -/
theorem claim6_counterexample :
    generatePresentationContent true (toL "x")
      (fun _ => .error ⟨toL "network failure"⟩) = .ok none := by
  unfold generatePresentationContent
  rw [if_neg (by decide)]
  obtain ⟨e, he⟩ := withRetry_all_errors (fun _ => .error ⟨toL "network failure"⟩) 4 1000
    (fun _ => ⟨⟨toL "network failure"⟩, rfl⟩)
  rw [he]

/-- C6 (amended): with the key configured, generateNotes and
generateQuizQuestions re-throw a model-call rejection unchanged, while
generatePresentationContent resolves with null when every retried call
rejects. -/
theorem claim6_amended (content explanation : List Char) (len : NoteLength)
    (count : Nat) (e : JsError) (errs : Nat → JsError) :
    generateNotes true content len (.error e) = .error e ∧
    generateQuizQuestions true content count (.error e) = .error e ∧
    generatePresentationContent true explanation (fun i => .error (errs i)) = .ok none := by
  refine ⟨rfl, rfl, ?_⟩
  unfold generatePresentationContent
  rw [if_neg (by decide)]
  obtain ⟨e2, he2⟩ := withRetry_all_errors (fun i => .error (errs i)) 4 1000
    (fun j => ⟨errs j, rfl⟩)
  rw [he2]

/-- C7 (counterexample): generateNotes throws when the API key is absent, so
not every operation degrades to a fallback. -/
theorem claim7_counterexample :
    generateNotes false (toL "abc") NoteLength.short (.ok (toL "text")) =
      .error apiKeyNotConfigured := rfl

/-- C7 (amended): with the key absent, the operations with fallbacks
(metadata, summary, explanation, feedback, presentation images) degrade to
their placeholder or fallback values, while generateNotes,
generateQuizQuestions and generatePresentationContent throw the
key-not-configured error. -/
theorem claim7_amended (content explanation : List Char)
    (call : Except JsError (List Char)) (len : NoteLength)
    (count score total : Nat) (ctx : Option (List Char))
    (fn : Nat → Except JsError (List Char)) (pres : PresentationContent)
    (imgFn : Nat → Nat → Except JsError (Option GenImage)) (nondet : Nat → List Char) :
    suggestMetadata false content call = .ok (.fallback (metadataFallback content)) ∧
    generateSummary false content call =
      .ok (toL "API Key not configured. Summary unavailable.") ∧
    generateExplanation false content call =
      .ok (toL "API Key not configured. Explanation unavailable.") ∧
    generateFeedbackOnQuiz false score total ctx call =
      .ok ⟨toL "AI feedback is unavailable as the API key is not configured."⟩ ∧
    generatePresentationImages false pres imgFn nondet =
      some { pres with slides := fallbackSlides nondet 0 pres.slides } ∧
    generateNotes false content len call = .error apiKeyNotConfigured ∧
    generateQuizQuestions false content count call = .error apiKeyNotConfigured ∧
    generatePresentationContent false explanation fn = .error apiKeyNotConfigured :=
  ⟨rfl, rfl, rfl, rfl, rfl, rfl, rfl, rfl⟩

theorem slideImageUrl_error (fb : List Char) (e : JsError) :
    slideImageUrl fb (.error e) = fb := rfl

/-- When every attempt for every slide errors, the enrichment loop produces
exactly the fallback mapping. -/
theorem enrichSlides_all_fail (imgFn : Nat → Nat → Except JsError (Option GenImage))
    (nondet : Nat → List Char)
    (hfail : ∀ i j, ∃ e, imgFn i j = .error e) :
    ∀ (slides : List SlideContent) (i : Nat),
      enrichSlides imgFn nondet i slides = fallbackSlides nondet i slides := by
  intro slides
  induction slides with
  | nil => intro i; rfl
  | cons s r ih =>
    intro i
    rw [enrichSlides, fallbackSlides]
    obtain ⟨e, he⟩ := withRetry_all_errors (imgFn i) 3 1000 (hfail i)
    rw [he, slideImageUrl_error, ih (i + 1)]

theorem fallbackSlides_length (nondet : Nat → List Char) :
    ∀ (slides : List SlideContent) (i : Nat),
      (fallbackSlides nondet i slides).length = slides.length := by
  intro slides
  induction slides with
  | nil => intro i; rfl
  | cons s r ih => intro i; rw [fallbackSlides]; simp [ih (i + 1)]

theorem fallbackSlides_get (nondet : Nat → List Char) :
    ∀ (slides : List SlideContent) (k i : Nat) (hi : i < slides.length)
      (ho : i < (fallbackSlides nondet k slides).length),
      (fallbackSlides nondet k slides).get ⟨i, ho⟩ =
        { slides.get ⟨i, hi⟩ with imageUrl := some (getFallbackImageUrl
            ((slides.get ⟨i, hi⟩).imagePrompt) (fallbackSuffix nondet (k + i))) } := by
  intro slides
  induction slides with
  | nil => intro k i hi; simp at hi
  | cons s r ih =>
    intro k i hi ho
    cases i with
    | zero => rfl
    | succ i2 =>
      have hi2 : i2 < r.length := by simpa using Nat.lt_of_succ_lt_succ hi
      have ho2 : i2 < (fallbackSlides nondet (k + 1) r).length := by
        rw [fallbackSlides_length]; exact hi2
      have := ih (k + 1) i2 hi2 ho2
      rw [show (fallbackSlides nondet k (s :: r)).get ⟨i2 + 1, ho⟩ =
        (fallbackSlides nondet (k + 1) r).get ⟨i2, ho2⟩ from rfl]
      rw [this]
      rw [show ((s :: r).get ⟨i2 + 1, hi⟩) = r.get ⟨i2, hi2⟩ from rfl]
      rw [show k + 1 + i2 = k + (i2 + 1) from by omega]

theorem getFallbackImageUrl_ne_nil (p s : List Char) : getFallbackImageUrl p s ≠ [] := by
  intro h
  rw [getFallbackImageUrl] at h
  rw [show toL "https://image.pollinations.ai/prompt/" =
    'h' :: toL "ttps://image.pollinations.ai/prompt/" from rfl] at h
  simp at h

/-- C8: for a presentation in which every image-generation attempt fails, the
returned document exists, has exactly as many slides as the input in the
original order, and every slide carries the non-empty fallback URL derived
from the imagePrompt of that slide. -/
theorem claim8_enrichment_all_fail (pres : PresentationContent)
    (imgFn : Nat → Nat → Except JsError (Option GenImage)) (nondet : Nat → List Char)
    (hfail : ∀ i j, ∃ e, imgFn i j = .error e) :
    generatePresentationImages true pres imgFn nondet =
      some { title := pres.title, slides := fallbackSlides nondet 0 pres.slides } ∧
    (fallbackSlides nondet 0 pres.slides).length = pres.slides.length ∧
    ∀ (i : Nat) (hi : i < pres.slides.length)
      (ho : i < (fallbackSlides nondet 0 pres.slides).length),
      ((fallbackSlides nondet 0 pres.slides).get ⟨i, ho⟩).imageUrl =
        some (getFallbackImageUrl ((pres.slides.get ⟨i, hi⟩).imagePrompt)
          (fallbackSuffix nondet i)) ∧
      getFallbackImageUrl ((pres.slides.get ⟨i, hi⟩).imagePrompt)
        (fallbackSuffix nondet i) ≠ [] := by
  refine ⟨?_, fallbackSlides_length nondet pres.slides 0, ?_⟩
  · unfold generatePresentationImages
    rw [if_neg (by decide)]
    rw [enrichSlides_all_fail imgFn nondet hfail pres.slides 0]
  · intro i hi ho
    rw [fallbackSlides_get nondet pres.slides 0 i hi ho]
    rw [Nat.zero_add]
    exact ⟨rfl, getFallbackImageUrl_ne_nil _ _⟩

/-- Concrete two-slide presentation for the claim C8 witness. -/
def c8Pres : PresentationContent :=
  { title := toL "Demo"
    slides := [
      { title := toL "One", content := [toL "a"], imagePrompt := toL "a cat",
        imageUrl := none },
      { title := toL "Two", content := [], imagePrompt := toL "a dog",
        imageUrl := none }] }

/-- Concrete always-failing image provider for the claim C8 witness. -/
def c8ImgFn : Nat → Nat → Except JsError (Option GenImage) :=
  fun _ _ => .error ⟨toL "503 Service Unavailable"⟩

/-- Concrete seed source for the claim C8 witness. -/
def c8Nondet : Nat → List Char := fun _ => toL "seed"

/-- Witness for claim C8 at a concrete input. -/
theorem claim8_witness :
    generatePresentationImages true c8Pres c8ImgFn c8Nondet =
      some { title := c8Pres.title, slides := fallbackSlides c8Nondet 0 c8Pres.slides } ∧
    (fallbackSlides c8Nondet 0 c8Pres.slides).length = c8Pres.slides.length := by
  have h := claim8_enrichment_all_fail c8Pres c8ImgFn c8Nondet
    (fun _ _ => ⟨⟨toL "503 Service Unavailable"⟩, rfl⟩)
  exact ⟨h.1, h.2.1⟩

theorem enrichSlides_strip (imgFn : Nat → Nat → Except JsError (Option GenImage))
    (nondet : Nat → List Char) :
    ∀ (slides : List SlideContent) (i : Nat),
      (enrichSlides imgFn nondet i slides).map (fun s => (s.title, s.content, s.imagePrompt)) =
        slides.map (fun s => (s.title, s.content, s.imagePrompt)) := by
  intro slides
  induction slides with
  | nil => intro i; rfl
  | cons s r ih =>
    intro i
    rw [enrichSlides]
    simp only [List.map_cons]
    rw [ih (i + 1)]

theorem fallbackSlides_strip (nondet : Nat → List Char) :
    ∀ (slides : List SlideContent) (i : Nat),
      (fallbackSlides nondet i slides).map (fun s => (s.title, s.content, s.imagePrompt)) =
        slides.map (fun s => (s.title, s.content, s.imagePrompt)) := by
  intro slides
  induction slides with
  | nil => intro i; rfl
  | cons s r ih =>
    intro i
    rw [fallbackSlides]
    simp only [List.map_cons]
    rw [ih (i + 1)]

/-- C10: generatePresentationImages only fills in image URLs: the returned
document keeps the input title and the per-slide title, content bullets and
imagePrompt, whatever the key state and provider outcomes. -/
theorem claim10_presentation_images_frame (ai : Bool) (pres : PresentationContent)
    (imgFn : Nat → Nat → Except JsError (Option GenImage)) (nondet : Nat → List Char) :
    (generatePresentationImages ai pres imgFn nondet).map
        (fun out => (out.title, out.slides.map (fun s => (s.title, s.content, s.imagePrompt)))) =
      some (pres.title, pres.slides.map (fun s => (s.title, s.content, s.imagePrompt))) := by
  unfold generatePresentationImages
  by_cases h : ai = false
  · rw [if_pos h]
    simp [fallbackSlides_strip]
  · rw [if_neg h]
    simp [enrichSlides_strip]

end Ameena
